import Mathlib

/-!
Verification development for the ende_distribucion dashboard repository.

The five dashboard pages (src/pages/energia.py, potencia.py,
potencia_distribuidoras.py, precio_potencia.py,
precios_peaje_distribucion.py) share a wide-to-long reshaping transform:
period-encoded column headers are parsed into first-of-month calendar
dates, the wide table is pivoted into a long table keyed by
(agent, company, date), and the long table is filtered and aggregated
(sum / mean / min / max, participation percentages).

This file gives a shallow embedding of that core:

* Python strings at the header/token layer are embedded as `List Char`
  (abbreviation `Str`); company and agent names are Lean `String`s.
* Spreadsheet cells are `Cell` (numeric, blank, or text); pandas missing
  values (NaN/NaT) are `Option.none`.
* Machine floats are embedded as exact rationals `ℚ`; the IEEE special
  values produced by numpy division are made explicit in `NpFloat`
  (finite, nan, +inf, -inf).  Python `int(...)` is modelled on ASCII
  digit strings, the only shape the period tokens take.
* `datetime(year, month, 1)` is `mkDatetime`, returning `none` exactly
  when CPython would raise `ValueError` (month outside 1..12 or year
  outside MINYEAR..MAXYEAR).
-/

/-- Str is the embedding of a Python `str` at the header/token layer:
a list of characters, so that slicing (`[:2]`), `split()` and
`in`-containment are ordinary list operations. -/
abbrev Str := List Char

/-- Date embeds a `datetime.datetime` at day resolution (the pages only
ever construct midnight timestamps): year, month, day. -/
structure Date where
  y : ℕ
  m : ℕ
  d : ℕ
deriving DecidableEq

/-- dateLe is the comparison used by the pandas date filters:
lexicographic on (year, month, day), mirroring chronological order of
`datetime` values. -/
def dateLe (a b : Date) : Prop :=
  a.y < b.y ∨ (a.y = b.y ∧ (a.m < b.m ∨ (a.m = b.m ∧ a.d ≤ b.d)))

instance : DecidablePred fun p : Date × Date => dateLe p.1 p.2 :=
  fun _ => by unfold dateLe; infer_instance

instance (a b : Date) : Decidable (dateLe a b) := by unfold dateLe; infer_instance

theorem dateLe_refl (a : Date) : dateLe a a := by simp [dateLe]

theorem dateLe_antisymm {a b : Date} (h1 : dateLe a b) (h2 : dateLe b a) : a = b := by
  cases a; cases b
  simp only [dateLe] at h1 h2
  simp only [Date.mk.injEq]
  omega

theorem dateLe_total (a b : Date) : dateLe a b ∨ dateLe b a := by
  simp only [dateLe]; omega

theorem dateLe_trans {a b c : Date} (h1 : dateLe a b) (h2 : dateLe b c) : dateLe a c := by
  simp only [dateLe] at h1 h2 ⊢; omega

/-- mkDatetime models the CPython constructor `datetime(year, month, 1)`:
it yields a date only when the month is in 1..12 and the year is in
MINYEAR..MAXYEAR = 1..9999, and raises (here: `none`) otherwise. -/
def mkDatetime (year month : ℕ) : Option Date :=
  if 1 ≤ month ∧ month ≤ 12 ∧ 1 ≤ year ∧ year ≤ 9999 then
    some ⟨year, month, 1⟩
  else
    none

/-- digVal gives the numeric value of an ASCII digit character (code
points 48-57), the elementary step of Python `int(...)` on the
digit-only tokens that appear in period codes. -/
def digVal (c : Char) : Option ℕ :=
  if 48 ≤ c.toNat ∧ c.toNat ≤ 57 then some (c.toNat - 48) else none

/-- parseNatDigits models Python `int(s)` for the tokens at hand: it
succeeds exactly on nonempty all-ASCII-digit strings (the only accepted
shapes that can arise from a period token; signs, underscores and
non-ASCII digits are out of scope of this model and rejected). -/
def parseNatDigits (s : Str) : Option ℕ :=
  match s.mapM digVal with
  | none => none
  | some ds => if ds = [] then none else some (ds.foldl (fun a d => a * 10 + d) 0)

/-- two renders a natural below 100 as a zero-padded two-digit string,
as `strftime` does for `%m` and `%y`. -/
def two (n : ℕ) : Str := [Nat.digitChar (n / 10 % 10), Nat.digitChar (n % 10)]

/-- four renders a natural below 10000 as a zero-padded four-digit
string, as `strftime` does for `%Y` on the years in scope. -/
def four (n : ℕ) : Str :=
  [Nat.digitChar (n / 1000 % 10), Nat.digitChar (n / 100 % 10),
   Nat.digitChar (n / 10 % 10), Nat.digitChar (n % 10)]

theorem digVal_digitChar {d : ℕ} (h : d < 10) : digVal (Nat.digitChar d) = some d := by
  interval_cases d <;> decide

theorem digVal_eq_some {c : Char} {d : ℕ} (h : digVal c = some d) :
    d < 10 ∧ c = Nat.digitChar d := by
  unfold digVal at h
  split at h
  case isTrue hc =>
    simp only [Option.some.injEq] at h
    subst h
    obtain ⟨hlo, hhi⟩ := hc
    refine ⟨by omega, ?_⟩
    obtain ⟨k, hck, hk10⟩ : ∃ k, c.toNat = k + 48 ∧ k < 10 :=
      ⟨c.toNat - 48, by omega, by omega⟩
    have hc2 : c = Char.ofNat (k + 48) := by
      rw [← hck]
      exact (Char.ofNat_toNat c).symm
    rw [hck, show k + 48 - 48 = k from by omega, hc2]
    interval_cases k <;> decide
  case isFalse => simp at h

/-- nextMonth models the month-advance step of the date-mapping loops in
energia.py, potencia.py, potencia_distribuidoras.py and
precio_potencia.py: December rolls over to January of the next year. -/
def nextMonth : ℕ × ℕ → ℕ × ℕ
  | (y, m) => if m = 12 then (y + 1, 1) else (y, m + 1)

/-- monthLe is the chronological comparison `current_date <= end_date`
restricted to (year, month) pairs. -/
def monthLe (a b : ℕ × ℕ) : Prop := a.1 < b.1 ∨ (a.1 = b.1 ∧ a.2 ≤ b.2)

instance (a b : ℕ × ℕ) : Decidable (monthLe a b) := by unfold monthLe; infer_instance

/-- validM says the month component is a real month, 1..12. -/
def validM (p : ℕ × ℕ) : Prop := 1 ≤ p.2 ∧ p.2 ≤ 12

/-- monthsUpto is the fuelled unfolding of the Python
`while current_date <= end_date` loop that enumerates the months of the
horizon in order.  The fuel is an upper bound on the iteration count;
`monthRange` supplies enough of it. -/
def monthsUpto : ℕ → ℕ × ℕ → ℕ × ℕ → List (ℕ × ℕ)
  | 0, _, _ => []
  | fuel + 1, cur, stop =>
    if monthLe cur stop then cur :: monthsUpto fuel (nextMonth cur) stop else []

/-- monthRange enumerates all months from start through stop inclusive,
as the date-mapping loops do. -/
def monthRange (start stop : ℕ × ℕ) : List (ℕ × ℕ) :=
  monthsUpto (12 * stop.1 + 13) start stop

theorem validM_nextMonth {p : ℕ × ℕ} (h : validM p) : validM (nextMonth p) := by
  obtain ⟨y, m⟩ := p
  by_cases hm : m = 12 <;> simp [nextMonth, validM, hm] at h ⊢ <;> omega

theorem monthLe_nextMonth (p : ℕ × ℕ) : monthLe p (nextMonth p) := by
  obtain ⟨y, m⟩ := p
  by_cases hm : m = 12 <;> simp [nextMonth, monthLe, hm] <;> omega

theorem monthLe_trans {a b c : ℕ × ℕ} (h1 : monthLe a b) (h2 : monthLe b c) : monthLe a c := by
  simp only [monthLe] at h1 h2 ⊢; omega

theorem mem_monthsUpto {fuel : ℕ} {cur stop p : ℕ × ℕ}
    (h : p ∈ monthsUpto fuel cur stop) :
    monthLe cur p ∧ monthLe p stop ∧ (validM cur → validM p) := by
  induction fuel generalizing cur with
  | zero => simp [monthsUpto] at h
  | succ n ih =>
    simp only [monthsUpto] at h
    split at h
    · rcases List.mem_cons.mp h with rfl | hmem
      · exact ⟨Or.inr ⟨rfl, le_refl _⟩, by assumption, fun hv => hv⟩
      · obtain ⟨h1, h2, h3⟩ := ih hmem
        exact ⟨monthLe_trans (monthLe_nextMonth cur) h1, h2,
          fun hv => h3 (validM_nextMonth hv)⟩
    · simp at h

theorem mem_monthRange {start stop p : ℕ × ℕ} (h : p ∈ monthRange start stop) :
    monthLe start p ∧ monthLe p stop ∧ (validM start → validM p) :=
  mem_monthsUpto h

/-- keyMMYYYY renders the dictionary key built by
`current_date.strftime('%m%Y')` in energia.py / potencia.py /
potencia_distribuidoras.py: zero-padded month then four-digit year. -/
def keyMMYYYY (p : ℕ × ℕ) : Str := two p.2 ++ four p.1

/-- date_mapping_energia is the `date_mapping` dictionary of energia.py
(and, identically, potencia.py and potencia_distribuidoras.py): one
entry per month from January 2023 through December 2025, keyed by the
MMYYYY rendering and valued by the first of that month (the
`'%Y-%m-01'` string later parsed back by `pd.to_datetime`). -/
def date_mapping_energia : List (Str × Date) :=
  (monthRange (2023, 1) (2025, 12)).map fun p => (keyMMYYYY p, ⟨p.1, p.2, 1⟩)

/-- formatted_period models energia.py's
`formatted_period = period[:2] + period[2:]` (an identity reslicing of
the token, kept for faithfulness). -/
def formatted_period (period : Str) : Str := period.take 2 ++ period.drop 2

/-- dictGet models Python dictionary lookup `d.get(k, default)` with a
`None`-like default, over an association list whose keys are unique (as
the date-mapping keys are). -/
def dictGet {α β : Type} [DecidableEq α] (k : α) : List (α × β) → Option β
  | [] => none
  | (a, b) :: t => if k = a then some b else dictGet k t

/-- parseMMYYYY is the period-to-date resolution of energia.py /
potencia.py: `date_mapping.get(formatted_period, pd.NaT)`. -/
def parseMMYYYY (period : Str) : Option Date :=
  dictGet (formatted_period period) date_mapping_energia

/-- parsePeaje is the explicit period decoder of
precios_peaje_distribucion.py lines 36-52: a 5-character token is read
as one month digit plus a four-digit year, a 6-character token as two
month digits plus a four-digit year, any other length is skipped, and
`int(...)` or `datetime(...)` failures are caught by the surrounding
`except`, yielding no date. -/
def parsePeaje (period_code : Str) : Option Date :=
  if period_code.length = 5 then
    match parseNatDigits (period_code.take 1), parseNatDigits (period_code.drop 1) with
    | some month, some year => mkDatetime year month
    | _, _ => none
  else if period_code.length = 6 then
    match parseNatDigits (period_code.take 2),
          parseNatDigits ((period_code.drop 2).take 4) with
    | some month, some year => mkDatetime year month
    | _, _ => none
  else none

theorem formatted_period_id (period : Str) : formatted_period period = period := by
  simp [formatted_period]

theorem dictGet_mem {α β : Type} [DecidableEq α] {k : α} {v : β} {l : List (α × β)}
    (h : dictGet k l = some v) : (k, v) ∈ l := by
  induction l with
  | nil => simp [dictGet] at h
  | cons p t ih =>
    obtain ⟨a, b⟩ := p
    simp only [dictGet] at h
    by_cases he : k = a
    · subst he
      rw [if_pos rfl] at h
      obtain rfl := Option.some.injEq .. ▸ h
      exact List.mem_cons_self _ _
    · rw [if_neg he] at h
      exact List.mem_cons_of_mem _ (ih h)

instance (p : ℕ × ℕ) : Decidable (validM p) := by unfold validM; infer_instance

theorem parseNatDigits_inv_one {s : Str} {n : ℕ} (hl : s.length = 1)
    (h : parseNatDigits s = some n) : n < 10 ∧ s = [Nat.digitChar n] := by
  match s, hl with
  | [c], _ =>
    unfold parseNatDigits at h
    cases hc : digVal c with
    | none => simp [List.mapM.loop, hc] at h
    | some d =>
      obtain ⟨hb, rfl⟩ := digVal_eq_some hc
      simp [List.mapM.loop, digVal_digitChar hb, List.foldl] at h
      constructor
      · omega
      · rw [show n = d by omega]

theorem parseNatDigits_inv_two {s : Str} {n : ℕ} (hl : s.length = 2)
    (h : parseNatDigits s = some n) : n < 100 ∧ s = two n := by
  match s, hl with
  | [c1, c2], _ =>
    unfold parseNatDigits at h
    cases hc1 : digVal c1 with
    | none => simp [List.mapM.loop, hc1] at h
    | some d1 =>
      cases hc2 : digVal c2 with
      | none => simp [List.mapM.loop, hc1, hc2] at h
      | some d2 =>
        obtain ⟨hb1, rfl⟩ := digVal_eq_some hc1
        obtain ⟨hb2, rfl⟩ := digVal_eq_some hc2
        simp [List.mapM.loop, digVal_digitChar hb1, digVal_digitChar hb2, List.foldl] at h
        constructor
        · omega
        · unfold two
          have e2 : n / 10 % 10 = d1 := by omega
          have e3 : n % 10 = d2 := by omega
          rw [e2, e3]

theorem parseNatDigits_inv_four {s : Str} {n : ℕ} (hl : s.length = 4)
    (h : parseNatDigits s = some n) : n < 10000 ∧ s = four n := by
  match s, hl with
  | [c1, c2, c3, c4], _ =>
    unfold parseNatDigits at h
    cases hc1 : digVal c1 with
    | none => simp [List.mapM.loop, hc1] at h
    | some d1 =>
      cases hc2 : digVal c2 with
      | none => simp [List.mapM.loop, hc1, hc2] at h
      | some d2 =>
        cases hc3 : digVal c3 with
        | none => simp [List.mapM.loop, hc1, hc2, hc3] at h
        | some d3 =>
          cases hc4 : digVal c4 with
          | none => simp [List.mapM.loop, hc1, hc2, hc3, hc4] at h
          | some d4 =>
            obtain ⟨hb1, rfl⟩ := digVal_eq_some hc1
            obtain ⟨hb2, rfl⟩ := digVal_eq_some hc2
            obtain ⟨hb3, rfl⟩ := digVal_eq_some hc3
            obtain ⟨hb4, rfl⟩ := digVal_eq_some hc4
            simp [List.mapM.loop, digVal_digitChar hb1, digVal_digitChar hb2,
              digVal_digitChar hb3, digVal_digitChar hb4, List.foldl] at h
            constructor
            · omega
            · unfold four
              have e2 : n / 1000 % 10 = d1 := by omega
              have e3 : n / 100 % 10 = d2 := by omega
              have e4 : n / 10 % 10 = d3 := by omega
              have e5 : n % 10 = d4 := by omega
              rw [e2, e3, e4, e5]

theorem mkDatetime_eq_some {y m : ℕ} {d : Date} (h : mkDatetime y m = some d) :
    d = ⟨y, m, 1⟩ ∧ 1 ≤ m ∧ m ≤ 12 ∧ 1 ≤ y ∧ y ≤ 9999 := by
  unfold mkDatetime at h
  split at h
  case isTrue hc =>
    simp only [Option.some.injEq] at h
    exact ⟨h.symm, hc.1, hc.2.1, hc.2.2.1, hc.2.2.2⟩
  case isFalse => simp at h

theorem parseMMYYYY_sound {tok : Str} {d : Date} (h : parseMMYYYY tok = some d) :
    monthLe (2023, 1) (d.y, d.m) ∧ monthLe (d.y, d.m) (2025, 12) ∧ validM (d.y, d.m) ∧
    d.d = 1 ∧ tok = keyMMYYYY (d.y, d.m) := by
  unfold parseMMYYYY at h
  rw [formatted_period_id] at h
  have hm := dictGet_mem h
  unfold date_mapping_energia at hm
  obtain ⟨p, hp, heq⟩ := List.mem_map.mp hm
  obtain ⟨h1, h2, h3⟩ := mem_monthRange hp
  rw [Prod.mk.injEq] at heq
  obtain ⟨rfl, rfl⟩ := heq
  exact ⟨h1, h2, h3 (by decide), rfl, rfl⟩

theorem parsePeaje_sound {tok : Str} {d : Date} (h : parsePeaje tok = some d) :
    d.d = 1 ∧ 1 ≤ d.m ∧ d.m ≤ 12 ∧ 1 ≤ d.y ∧ d.y ≤ 9999 ∧
    ((d.m ≤ 9 ∧ tok = Nat.digitChar d.m :: four d.y) ∨ tok = two d.m ++ four d.y) := by
  unfold parsePeaje at h
  split at h
  case isTrue hl5 =>
    split at h
    case h_1 month year hmon hyear =>
      obtain ⟨hdd, hb1, hb2, hb3, hb4⟩ := mkDatetime_eq_some h
      have hmm : d.m = month := by rw [hdd]
      have hyy : d.y = year := by rw [hdd]
      have hddz : d.d = 1 := by rw [hdd]
      obtain ⟨hm10, hmtake⟩ := parseNatDigits_inv_one (by simp [hl5]) hmon
      obtain ⟨hy4, hydrop⟩ := parseNatDigits_inv_four (by simp [hl5]) hyear
      refine ⟨hddz, by omega, by omega, by omega, by omega, Or.inl ⟨by omega, ?_⟩⟩
      rw [hmm, hyy]
      calc tok = tok.take 1 ++ tok.drop 1 := (List.take_append_drop 1 tok).symm
        _ = Nat.digitChar month :: four year := by rw [hmtake, hydrop]; rfl
    case h_2 hne => simp at h
  case isFalse hl5 =>
    split at h
    case isTrue hl6 =>
      split at h
      case h_1 month year hmon hyear =>
        obtain ⟨hdd, hb1, hb2, hb3, hb4⟩ := mkDatetime_eq_some h
        have hmm : d.m = month := by rw [hdd]
        have hyy : d.y = year := by rw [hdd]
        have hddz : d.d = 1 := by rw [hdd]
        obtain ⟨hm100, hmtake⟩ := parseNatDigits_inv_two (by simp [hl6]) hmon
        obtain ⟨hy4, hydrop⟩ := parseNatDigits_inv_four (by simp [hl6]) hyear
        have hdt : (tok.drop 2).take 4 = tok.drop 2 :=
          List.take_of_length_le (by simp [hl6])
        refine ⟨hddz, by omega, by omega, by omega, by omega, Or.inr ?_⟩
        rw [hmm, hyy]
        calc tok = tok.take 2 ++ tok.drop 2 := (List.take_append_drop 2 tok).symm
          _ = two month ++ four year := by rw [hmtake, ← hdt, hydrop]
      case h_2 hne => simp at h
    case isFalse => simp at h

/-- Cell is a spreadsheet cell as read by `pd.read_excel`: a numeric
value, an empty cell (NaN), or text. -/
inductive Cell where
  | num (q : ℚ)
  | blank
  | text (s : Str)
deriving DecidableEq

/-- Cell.asNum is the value a cell contributes when a page copies the
column unchanged into the long value column (energia.py line 79,
potencia.py line 79, precio_potencia.py line 53): numbers pass through,
blanks are NaN.  A text cell in a numeric column would make the whole
column object-typed, which none of the claims exercise; it is modelled
as missing. -/
def Cell.asNum : Cell → Option ℚ
  | .num q => some q
  | .blank => none
  | .text _ => none

/-- parseUnsignedQ parses the plain decimal forms `digits` and
`digits.digits` that `pd.to_numeric` accepts from these spreadsheets;
exponent and degenerate dot forms are out of scope of this model and
yield NaN. -/
def parseUnsignedQ (s : Str) : Option ℚ :=
  match s.splitOn '.' with
  | [ip] => (parseNatDigits ip).map (fun n => (n : ℚ))
  | [ip, fp] =>
    match parseNatDigits ip, parseNatDigits fp with
    | some n, some f => some ((n : ℚ) + (f : ℚ) / ((10 : ℚ) ^ fp.length))
    | _, _ => none
  | _ => none

/-- parseFloatQ adds the optional leading minus sign. -/
def parseFloatQ (s : Str) : Option ℚ :=
  match s with
  | '-' :: rest => (parseUnsignedQ rest).map (fun q => -q)
  | _ => parseUnsignedQ s

/-- toNumericCell models precios_peaje_distribucion.py lines 56-59,
`pd.to_numeric(temp_df[col].astype(str).str.replace(',', ''),
errors='coerce')`: numbers round-trip through their string form, blanks
render as "nan" which coerces back to NaN, and text has its commas
(thousands separators) removed before parsing, unparseable text
coercing to NaN. -/
def toNumericCell : Cell → Option ℚ
  | .num q => some q
  | .blank => none
  | .text s => parseFloatQ (s.filter (fun c => c ≠ ','))

/-- trim is Python `str.strip()`: remove leading and trailing
whitespace. -/
def trim (s : Str) : Str :=
  ((s.dropWhile Char.isWhitespace).reverse.dropWhile Char.isWhitespace).reverse

/-- words is Python `str.split()` with no argument: split on whitespace
runs, dropping empty pieces. -/
def words (s : Str) : List Str :=
  (List.splitOnP (fun c => c.isWhitespace) s).filter (fun w => w ≠ [])

/-- lastToken is `col.split()[-1]`, the trailing period token of a
column header.  The selected headers contain the measurement label, so
the word list is never empty and the `[-1]` indexing never faults; the
default only makes the function total. -/
def lastToken (s : Str) : Str := (words s).getLastD []

/-- startsWithStr decides whether the second string begins with the
first. -/
def startsWithStr : Str → Str → Bool
  | [], _ => true
  | _ :: _, [] => false
  | n :: ns, h :: hs => n == h && startsWithStr ns hs

/-- containsSub decides Python `needle in hay` on strings. -/
def containsSub (needle : Str) : Str → Bool
  | [] => startsWithStr needle []
  | h :: hs => startsWithStr needle (h :: hs) || containsSub needle hs

/-- RawRow is one row of the raw spreadsheet: the two identity columns
plus the value cells, aligned with the table header. -/
structure RawRow where
  agente : String
  empresa : String
  cells : List Cell
deriving DecidableEq

/-- RawTable is the raw rectangular table: the value-column headers and
the rows.  (`AGENTE` and `EMPRESA` live in the row structure.) -/
structure RawTable where
  header : List Str
  rows : List RawRow
deriving DecidableEq

/-- LongRecord is one row of the reshaped long table: agent, company,
resolved first-of-month date, the (possibly missing) numeric value, and
the raw period token. -/
structure LongRecord where
  agente : String
  empresa : String
  fecha : Date
  value : Option ℚ
  periodo : Str
deriving DecidableEq

/-- PreRecord is a long row before the date-validity filter: its date
may still be missing (NaT). -/
structure PreRecord where
  agente : String
  empresa : String
  fecha : Option Date
  value : Option ℚ
  periodo : Str
deriving DecidableEq

/-- selectedCols models `df.columns = df.columns.str.strip()` followed
by `[col for col in df.columns if label in col]`, keeping the cell
index of each selected column. -/
def selectedCols (label : Str) (t : RawTable) : List (ℕ × Str) :=
  (t.header.map trim).enum.filter (fun ic => containsSub label ic.2)

/-- cellAt reads the cell of a row at a column index (rows are as wide
as the header). -/
def cellAt (r : RawRow) (i : ℕ) : Cell := r.cells.getD i Cell.blank

/-- energiaCol is the body of the per-column loop of energia.py lines
71-81 (identically potencia.py): take the last header token as the
period, resolve it through the date mapping, and copy the identity
columns and the cell values. -/
def energiaCol (t : RawTable) (ic : ℕ × Str) : List PreRecord :=
  let period := lastToken ic.2
  t.rows.map fun r =>
    ⟨r.agente, r.empresa, parseMMYYYY period, (cellAt r ic.1).asNum, period⟩

/-- toLongRecord is the `transformed_df[transformed_df['FECHA'].notna()]`
step: a pre-record survives exactly when its date resolved. -/
def toLongRecord (p : PreRecord) : Option LongRecord :=
  match p.fecha with
  | some d => some ⟨p.agente, p.empresa, d, p.value, p.periodo⟩
  | none => none

/-- labelEnergia is the value-column selector substring of energia.py. -/
def labelEnergia : Str := "Energía MWh".data

/-- labelPeaje is the value-column selector substring of
precios_peaje_distribucion.py. -/
def labelPeaje : Str := "Peaje generación USD/MWh".data

/-- energiaTransform is the wide-to-long reshape of energia.py lines
50-87: select the labelled columns, build one partial frame per column,
concatenate, and drop rows whose period did not resolve to a date. -/
def energiaTransform (t : RawTable) : List LongRecord :=
  (((selectedCols labelEnergia t).map (energiaCol t)).flatten).filterMap toLongRecord

/-- peajeCol is the body of the per-column loop of
precios_peaje_distribucion.py lines 31-61: decode the trimmed last
token with the 5/6-digit rule, skipping the column (the `continue`
branches and the `except` handler) when it does not decode, and coerce
the cells numerically. -/
def peajeCol (t : RawTable) (ic : ℕ × Str) : Option (List LongRecord) :=
  let period_code := trim (lastToken ic.2)
  match parsePeaje period_code with
  | none => none
  | some date => some (t.rows.map fun r =>
      ⟨r.agente, r.empresa, date, toNumericCell (cellAt r ic.1), period_code⟩)

/-- peajeTransform is the reshape of precios_peaje_distribucion.py
lines 30-68: one partial frame per decodable column; `None` when no
column decoded (`if not dfs`); concatenated and stripped of rows with a
missing value (`dropna(subset=['FECHA', 'Peaje generación USD/MWh'])`;
the dates are present by construction). -/
def peajeTransform (t : RawTable) : Option (List LongRecord) :=
  let dfs := (selectedCols labelPeaje t).filterMap (peajeCol t)
  if dfs = [] then none
  else some ((dfs.flatten).filter (fun r => r.value.isSome))

/-- insertOrd inserts an element into a sorted list, before the first
strictly greater element (equal keys keep the incoming element first,
which is what makes the sort below stable). -/
def insertOrd {α : Type} (le : α → α → Bool) (x : α) : List α → List α
  | [] => [x]
  | y :: ys => if le x y then x :: y :: ys else y :: insertOrd le x ys

/-- isortBy is a stable insertion sort; it stands in for the stable
ascending sorts performed by pandas (`groupby` key ordering, and the
ascending argsort inside `sort_values`). -/
def isortBy {α : Type} (le : α → α → Bool) : List α → List α
  | [] => []
  | x :: xs => insertOrd le x (isortBy le xs)

/-- sort_values_desc models pandas
`sort_values(by=key, ascending=False)`: internally pandas argsorts
ascending and then reverses the indexer, so equal keys come out in
reversed input order.  (The stable sort kind is modelled; numpy's
default quicksort guarantees no particular tie order, while the
reversal step is common to every kind.) -/
def sort_values_desc {α : Type} (le : α → α → Bool) (l : List α) : List α :=
  (isortBy le l).reverse

/-- lexLt is lexicographic strict comparison of character lists, the
order pandas uses on string group keys. -/
def lexLt : Str → Str → Bool
  | [], [] => false
  | [], _ :: _ => true
  | _ :: _, [] => false
  | a :: as, b :: bs => if a < b then true else if b < a then false else lexLt as bs

/-- strLt is strict lexicographic comparison of company/agent names. -/
def strLt (a b : String) : Bool := lexLt a.data b.data

/-- strLe is the matching non-strict comparison. -/
def strLe (a b : String) : Bool := !(strLt b a)

theorem lexLt_irrefl (s : Str) : lexLt s s = false := by
  induction s with
  | nil => rfl
  | cons a as ih => simp [lexLt, ih]

theorem lexLt_asymm {a b : Str} (h : lexLt a b = true) : lexLt b a = false := by
  induction a generalizing b with
  | nil =>
    cases b with
    | nil => simp [lexLt] at h
    | cons y ys => rfl
  | cons x xs ih =>
    cases b with
    | nil => simp [lexLt] at h
    | cons y ys =>
      simp only [lexLt] at h ⊢
      by_cases h1 : x < y
      · rw [if_neg (asymm h1), if_pos h1]
      · rw [if_neg h1] at h
        by_cases h2 : y < x
        · rw [if_pos h2] at h
          simp at h
        · rw [if_neg h2] at h
          rw [if_neg h2, if_neg h1]
          exact ih h

theorem lexLt_conn {a b : Str} (h1 : lexLt a b = false) (h2 : lexLt b a = false) : a = b := by
  induction a generalizing b with
  | nil =>
    cases b with
    | nil => rfl
    | cons y ys => simp [lexLt] at h1
  | cons x xs ih =>
    cases b with
    | nil => simp [lexLt] at h2
    | cons y ys =>
      simp only [lexLt] at h1 h2
      by_cases hxy : x < y
      · rw [if_pos hxy] at h1; simp at h1
      · by_cases hyx : y < x
        · rw [if_pos hyx] at h2; simp at h2
        · rw [if_neg hxy, if_neg hyx] at h1
          rw [if_neg hyx, if_neg hxy] at h2
          have : x = y := le_antisymm (not_lt.mp hyx) (not_lt.mp hxy)
          rw [this, ih h1 h2]

theorem lexLt_trans {a b c : Str} (h1 : lexLt a b = true) (h2 : lexLt b c = true) :
    lexLt a c = true := by
  induction a generalizing b c with
  | nil =>
    cases c with
    | nil =>
      cases b with
      | nil => simp [lexLt] at h1
      | cons y ys => simp [lexLt] at h2
    | cons z zs => rfl
  | cons x xs ih =>
    cases b with
    | nil => simp [lexLt] at h1
    | cons y ys =>
      cases c with
      | nil => simp [lexLt] at h2
      | cons z zs =>
        simp only [lexLt] at h1 h2 ⊢
        by_cases hxy : x < y
        · have hyz : y ≤ z := by
            by_contra hc
            push_neg at hc
            rw [if_neg (asymm hc), if_pos hc] at h2
            simp at h2
          have hxz : x < z := lt_of_lt_of_le hxy hyz
          rw [if_pos hxz]
        · by_cases hyx : y < x
          · rw [if_neg hxy, if_pos hyx] at h1
            simp at h1
          · have hxy' : x = y := le_antisymm (not_lt.mp hyx) (not_lt.mp hxy)
            subst hxy'
            rw [if_neg hxy, if_neg hyx] at h1
            by_cases hxz : x < z
            · rw [if_pos hxz]
            · by_cases hzx : z < x
              · rw [if_neg hxz, if_pos hzx] at h2
                simp at h2
              · rw [if_neg hxz, if_neg hzx] at h2 ⊢
                exact ih h1 h2

theorem strData_inj {a b : String} (h : a.data = b.data) : a = b := by
  cases a
  cases b
  exact congrArg String.mk h

theorem strLe_total (a b : String) : strLe a b = true ∨ strLe b a = true := by
  unfold strLe strLt
  by_cases h : lexLt b.data a.data = true
  · right
    rw [lexLt_asymm h]
    rfl
  · left
    simp only [Bool.not_eq_true] at h
    rw [h]
    rfl

theorem strLe_trans {a b c : String} (h1 : strLe a b = true) (h2 : strLe b c = true) :
    strLe a c = true := by
  unfold strLe strLt at h1 h2 ⊢
  simp only [Bool.not_eq_true'] at h1 h2 ⊢
  by_contra hc
  simp only [Bool.not_eq_false] at hc
  by_cases hab : lexLt a.data b.data = true
  · have hcb := lexLt_trans hc hab
    rw [h2] at hcb
    simp at hcb
  · have he : a.data = b.data := lexLt_conn (by simpa using hab) h1
    rw [← he] at h2
    rw [h2] at hc
    simp at hc

theorem strLe_antisymm {a b : String} (h1 : strLe a b = true) (h2 : strLe b a = true) :
    a = b := by
  unfold strLe strLt at h1 h2
  simp only [Bool.not_eq_true'] at h1 h2
  exact strData_inj (lexLt_conn h2 h1)

theorem strLt_iff {a b : String} : strLt a b = true ↔ (strLe a b = true ∧ ¬ a = b) := by
  unfold strLe strLt
  constructor
  · intro h
    refine ⟨?_, ?_⟩
    · rw [lexLt_asymm h]
      rfl
    · intro he
      subst he
      rw [lexLt_irrefl] at h
      simp at h
  · intro hp
    obtain ⟨h1, h2⟩ := hp
    simp only [Bool.not_eq_true'] at h1
    by_contra hc
    simp only [Bool.not_eq_true] at hc
    exact h2 (strData_inj (lexLt_conn hc h1))

theorem mem_insertOrd {α : Type} {le : α → α → Bool} {x a : α} {l : List α} :
    a ∈ insertOrd le x l ↔ a = x ∨ a ∈ l := by
  induction l with
  | nil => simp [insertOrd]
  | cons y ys ih =>
    simp only [insertOrd]
    split
    · simp only [List.mem_cons]
    · simp only [List.mem_cons, ih]
      tauto

theorem insertOrd_perm {α : Type} (le : α → α → Bool) (x : α) (l : List α) :
    (insertOrd le x l).Perm (x :: l) := by
  induction l with
  | nil => exact List.Perm.refl _
  | cons y ys ih =>
    simp only [insertOrd]
    split
    · exact List.Perm.refl _
    · exact (ih.cons y).trans (List.Perm.swap x y ys)

theorem isortBy_perm {α : Type} (le : α → α → Bool) (l : List α) :
    (isortBy le l).Perm l := by
  induction l with
  | nil => exact List.Perm.refl _
  | cons x xs ih => exact (insertOrd_perm le x (isortBy le xs)).trans (ih.cons x)

theorem sort_values_desc_perm {α : Type} (le : α → α → Bool) (l : List α) :
    (sort_values_desc le l).Perm l := by
  unfold sort_values_desc
  exact (List.reverse_perm _).trans (isortBy_perm le l)

theorem insertOrd_pairwise_lex {α : Type} {q : α → α → Bool} {S W : α → α → Prop}
    (htrans : ∀ a b c, q a b = true → q b c = true → q a c = true)
    (htot : ∀ a b, q a b = true ∨ q b a = true)
    (hW1 : ∀ a b, q a b = true → ¬ q b a = true → W a b)
    (hW2 : ∀ a b, q a b = true → q b a = true → S a b → W a b)
    (hle_of_W : ∀ a b, W a b → q a b = true)
    {x : α} {l : List α} (hl : l.Pairwise W) (hx : ∀ z ∈ l, S x z) :
    (insertOrd q x l).Pairwise W := by
  induction l with
  | nil => simp [insertOrd]
  | cons y t ih =>
    obtain ⟨hy, ht⟩ := List.pairwise_cons.mp hl
    simp only [insertOrd]
    split
    case isTrue hxy =>
      refine List.Pairwise.cons ?_ hl
      intro z hz
      rcases List.mem_cons.mp hz with rfl | hzt
      · by_cases hyx : q z x = true
        · exact hW2 x z hxy hyx (hx z (List.mem_cons_self _ _))
        · exact hW1 x z hxy hyx
      · have hyz := hle_of_W _ _ (hy z hzt)
        have hxz := htrans _ _ _ hxy hyz
        by_cases hzx : q z x = true
        · exact hW2 x z hxz hzx (hx z (List.mem_cons_of_mem _ hzt))
        · exact hW1 x z hxz hzx
    case isFalse hxy =>
      have hyx : q y x = true := by
        rcases htot x y with h | h
        · exact absurd h hxy
        · exact h
      refine List.Pairwise.cons ?_ (ih ht (fun z hz => hx z (List.mem_cons_of_mem _ hz)))
      intro z hz
      rcases mem_insertOrd.mp hz with rfl | hzt
      · exact hW1 y z hyx hxy
      · exact hy z hzt

theorem isortBy_pairwise_lex {α : Type} {q : α → α → Bool} {S W : α → α → Prop}
    (htrans : ∀ a b c, q a b = true → q b c = true → q a c = true)
    (htot : ∀ a b, q a b = true ∨ q b a = true)
    (hW1 : ∀ a b, q a b = true → ¬ q b a = true → W a b)
    (hW2 : ∀ a b, q a b = true → q b a = true → S a b → W a b)
    (hle_of_W : ∀ a b, W a b → q a b = true)
    {l : List α} (hl : l.Pairwise S) : (isortBy q l).Pairwise W := by
  induction l with
  | nil => simp [isortBy]
  | cons x xs ih =>
    obtain ⟨hx, hxs⟩ := List.pairwise_cons.mp hl
    refine insertOrd_pairwise_lex htrans htot hW1 hW2 hle_of_W (ih hxs) ?_
    intro z hz
    exact hx z ((isortBy_perm q xs).mem_iff.mp hz)

/-- values projects the measurement column out of a long table. -/
def values (df : List LongRecord) : List (Option ℚ) := df.map (fun r => r.value)

/-- pandasSum is pandas `Series.sum()`: missing values are skipped, and
a series with no present value sums to 0. -/
def pandasSum (vs : List (Option ℚ)) : ℚ := (vs.filterMap id).sum

/-- pandasMean is pandas `Series.mean()`: the mean of the present
values, NaN (none) when no value is present. -/
def pandasMean (vs : List (Option ℚ)) : Option ℚ :=
  if (vs.filterMap id) = [] then none
  else some ((vs.filterMap id).sum / ((vs.filterMap id).length : ℚ))

/-- fechas projects the date column out of a long table. -/
def fechas (df : List LongRecord) : List Date := df.map (fun r => r.fecha)

/-- dateLeB is the boolean form of the date comparison. -/
def dateLeB (a b : Date) : Bool := decide (dateLe a b)

/-- groupbyFechaSum is `df.groupby('FECHA')[value].sum()`: one row per
distinct date (pandas sorts group keys ascending), holding the
NaN-skipping sum of the matching records. -/
def groupbyFechaSum (df : List LongRecord) : List (Date × ℚ) :=
  (isortBy dateLeB (fechas df).dedup).map
    fun d => (d, pandasSum (values (df.filter (fun r => decide (r.fecha = d)))))

/-- groupbyFechaMean is `df.groupby('FECHA')[value].mean()`. -/
def groupbyFechaMean (df : List LongRecord) : List (Date × Option ℚ) :=
  (isortBy dateLeB (fechas df).dedup).map
    fun d => (d, pandasMean (values (df.filter (fun r => decide (r.fecha = d)))))

/-- df_filtered is the sidebar date filter shared by every page
(energia.py lines 128-131, precios_peaje_distribucion.py line 111,
potencia_distribuidoras.py lines 90-91, precio_potencia.py line 96):
`df[(df['FECHA'] >= start_date) & (df['FECHA'] <= end_date)]`. -/
def df_filtered (df : List LongRecord) (start_date end_date : Date) : List LongRecord :=
  df.filter (fun r => dateLeB start_date r.fecha && dateLeB r.fecha end_date)

/-- df_empresa is the company selection
`df_filtered[df_filtered['EMPRESA'] == selected_empresa]`. -/
def df_empresa (df : List LongRecord) (e : String) : List LongRecord :=
  df.filter (fun r => decide (r.empresa = e))

/-- df_agente is the agent selection
`df_filtered[df_filtered['AGENTE'] == selected_agente]`. -/
def df_agente (df : List LongRecord) (a : String) : List LongRecord :=
  df.filter (fun r => decide (r.agente = a))

/-- df_empresa_prom is energia.py line 182 (potencia.py line 182):
`df_empresa.groupby(['FECHA', 'EMPRESA'])[value].sum()` — the EMPRESA
key is constant on the already-selected frame, so the grouping is by
date. -/
def df_empresa_prom (df : List LongRecord) (e : String) : List (Date × ℚ) :=
  groupbyFechaSum (df_empresa df e)

/-- df_sistema is energia.py line 212 (potencia.py line 212):
`df_filtered.groupby('FECHA')[value].sum()`. -/
def df_sistema (df : List LongRecord) : List (Date × ℚ) := groupbyFechaSum df

/-- df_empresa_prom_mean is precios_peaje_distribucion.py line 151 and
precio_potencia.py line 134:
`df_empresa.groupby(['FECHA', 'EMPRESA'])[value].mean()`. -/
def df_empresa_prom_mean (df : List LongRecord) (e : String) : List (Date × Option ℚ) :=
  groupbyFechaMean (df_empresa df e)

/-- df_sistema_mean is precios_peaje_distribucion.py line 172 and
precio_potencia.py line 160: `df_filtered.groupby('FECHA')[value].mean()`. -/
def df_sistema_mean (df : List LongRecord) : List (Date × Option ℚ) :=
  groupbyFechaMean df

theorem dictGet_map_key {α β : Type} [DecidableEq α] (f : α → β) (d : α) (ks : List α) :
    dictGet d (ks.map (fun k => (k, f k))) = if d ∈ ks then some (f d) else none := by
  induction ks with
  | nil => simp [dictGet]
  | cons k t ih =>
    simp only [List.map_cons, dictGet]
    by_cases he : d = k
    · subst he
      simp
    · rw [if_neg he, ih]
      by_cases hm : d ∈ t
      · rw [if_pos hm, if_pos (List.mem_cons_of_mem _ hm)]
      · rw [if_neg hm, if_neg (by simp [he, hm])]

theorem pandasMean_skip_none (vs : List (Option ℚ)) :
    pandasMean (none :: vs) = pandasMean vs := by
  simp [pandasMean]

theorem pandasSum_skip_none (vs : List (Option ℚ)) :
    pandasSum (none :: vs) = pandasSum vs := by
  simp [pandasSum]

theorem pandasSum_eq_sum_getD (vs : List (Option ℚ)) :
    pandasSum vs = (vs.map (fun v => v.getD 0)).sum := by
  induction vs with
  | nil => rfl
  | cons v t ih =>
    cases v with
    | none => simp [pandasSum, List.filterMap] at ih ⊢; simpa using ih
    | some q => simp [pandasSum, List.filterMap] at ih ⊢; rw [ih]

/-- NpFloat makes the numpy float64 special values explicit: a finite
value (exact rational in this model), NaN, +inf, -inf. -/
inductive NpFloat where
  | fin (q : ℚ)
  | nan
  | pinf
  | ninf
deriving DecidableEq

/-- npDiv models numpy scalar division: dividing by zero emits a
RuntimeWarning (not an exception) and produces nan for 0/0 and a signed
infinity otherwise. -/
def npDiv (a b : ℚ) : NpFloat :=
  if b = 0 then
    if a = 0 then .nan else if 0 < a then .pinf else .ninf
  else .fin (a / b)

/-- npMul100 is the subsequent `* 100`: finite values scale, and the
special values are fixed by multiplication with the positive constant. -/
def npMul100 : NpFloat → NpFloat
  | .fin q => .fin (q * 100)
  | x => x

/-- total_potencia_sistema is potencia_distribuidoras.py line 97:
`df_filtered['Potencia kW'].sum()`. -/
def total_potencia_sistema (df : List LongRecord) : ℚ := pandasSum (values df)

/-- porcentaje_agente is potencia_distribuidoras.py line 177:
`(potencia_total_agente / total_potencia_sistema) * 100` on numpy
floats. -/
def porcentaje_agente (df : List LongRecord) (a : String) : NpFloat :=
  npMul100 (npDiv (pandasSum (values (df_agente df a))) (total_potencia_sistema df))

/-- porcentaje_empresa is potencia_distribuidoras.py line 198. -/
def porcentaje_empresa (df : List LongRecord) (e : String) : NpFloat :=
  npMul100 (npDiv (pandasSum (values (df_empresa df e))) (total_potencia_sistema df))

/-- fmt2 renders a finite value with two decimals, standing in for
CPython `%.2f` formatting of the exact rational model (the finite case
is not relied on by any theorem). -/
def fmt2 (q : ℚ) : String :=
  let n : ℤ := ⌊q * 100 + 1 / 2⌋
  toString (n / 100) ++ "." ++ toString (n % 100 / 10) ++ toString (n % 10)

/-- fmtPct models the metric string `f"{x:.2f}%"` of
potencia_distribuidoras.py lines 181 and 202 applied to a numpy float:
CPython prints NaN as "nan" and infinities as "inf"/"-inf". -/
def fmtPct : NpFloat → String
  | .nan => "nan%"
  | .pinf => "inf%"
  | .ninf => "-inf%"
  | .fin q => fmt2 q ++ "%"

/-- groupbyEmpresaSum is
`df_filtered.groupby('EMPRESA', as_index=False)['Potencia kW'].sum()`
(potencia_distribuidoras.py line 250): per-company NaN-skipping sums,
keys sorted ascending as pandas does. -/
def groupbyEmpresaSum (df : List LongRecord) : List (String × ℚ) :=
  (isortBy strLe (df.map (fun r => r.empresa)).dedup).map
    fun e => (e, pandasSum (values (df_empresa df e)))

/-- participacion is potencia_distribuidoras.py lines 249-254: the
per-company totals, a percentage column against the precomputed system
total, sorted descending by percentage.  The ℚ division makes the
percentage column faithful whenever the system total is non-zero; the
zero-total behaviour is captured by the NpFloat functions above. -/
def participacion (df : List LongRecord) : List (String × ℚ × ℚ) :=
  sort_values_desc (fun a b => decide (a.2.2 ≤ b.2.2))
    ((groupbyEmpresaSum df).map
      fun p => (p.1, p.2, p.2 / total_potencia_sistema df * 100))

/-- total_por_mes is potencia_distribuidoras.py lines 321-322:
`df_filtered.groupby('FECHA', as_index=False, sort=False)['Potencia kW'].sum()`
— `sort=False`, so the keys stay in first-appearance order. -/
def total_por_mes (df : List LongRecord) : List (Date × ℚ) :=
  (fechas df).dedup.map
    fun d => (d, pandasSum (values (df.filter (fun r => decide (r.fecha = d)))))

/-- pairLeB orders (FECHA, EMPRESA) group keys as sorted pandas groupby
does: by date, ties by company name. -/
def pairLeB (a b : Date × String) : Bool :=
  if a.1 = b.1 then strLe a.2 b.2 else dateLeB a.1 b.1

/-- empresa_por_mes is potencia_distribuidoras.py line 325:
`df_filtered.groupby(['FECHA', 'EMPRESA'], as_index=False)['Potencia kW'].sum()`. -/
def empresa_por_mes (df : List LongRecord) : List ((Date × String) × ℚ) :=
  (isortBy pairLeB (df.map (fun r => (r.fecha, r.empresa))).dedup).map
    fun k => (k, pandasSum (values (df.filter
      (fun r => decide (r.fecha = k.1) && decide (r.empresa = k.2)))))

/-- ParticipacionRow is one row of `df_participacion`: date, company,
company monthly total, system monthly total, monthly participation
percentage. -/
structure ParticipacionRow where
  fecha : Date
  empresa : String
  potencia : ℚ
  total_sistema : ℚ
  participacion : ℚ
deriving DecidableEq

/-- df_participacion is potencia_distribuidoras.py lines 328-329: the
inner merge of empresa_por_mes with total_por_mes on FECHA — every
company-month date occurs among the system-month keys, so the lookup
always hits and the `getD 0` default is dead — plus
`(empresa_total / system_total) * 100`.  As with `participacion`, the ℚ
division is faithful for non-zero monthly totals. -/
def df_participacion (df : List LongRecord) : List ParticipacionRow :=
  (empresa_por_mes df).map fun kv =>
    let t := (dictGet kv.1.1 (total_por_mes df)).getD 0
    ⟨kv.1.1, kv.1.2, kv.2, t, kv.2 / t * 100⟩

/-- StatsRow is one row of the `stats` table: company, min, mean, max of
the monthly company totals, and mean monthly participation. -/
structure StatsRow where
  empresa : String
  minimo : ℚ
  promedio : ℚ
  maximo : ℚ
  participacion_promedio : ℚ
deriving DecidableEq

/-- listMin folds pandas `min` over a group (groups are never empty; the
0 default only makes the function total). -/
def listMin : List ℚ → ℚ
  | [] => 0
  | x :: xs => xs.foldl min x

/-- listMax likewise for pandas `max`. -/
def listMax : List ℚ → ℚ
  | [] => 0
  | x :: xs => xs.foldl max x

/-- listMean is pandas `mean` on a column without missing values. -/
def listMean (l : List ℚ) : ℚ := l.sum / (l.length : ℚ)

/-- stats is potencia_distribuidoras.py lines 332-340: group
df_participacion by EMPRESA (keys ascending, pandas default `sort=True`)
and aggregate. -/
def stats (df : List LongRecord) : List StatsRow :=
  (isortBy strLe ((df_participacion df).map (fun r => r.empresa)).dedup).map fun e =>
    let g := (df_participacion df).filter (fun r => decide (r.empresa = e))
    ⟨e, listMin (g.map (fun r => r.potencia)), listMean (g.map (fun r => r.potencia)),
      listMax (g.map (fun r => r.potencia)), listMean (g.map (fun r => r.participacion))⟩

/-- stats_sorted is potencia_distribuidoras.py line 343:
`stats.sort_values(by='Participacion_Promedio', ascending=False)`. -/
def stats_sorted (df : List LongRecord) : List StatsRow :=
  sort_values_desc (fun a b => decide (a.participacion_promedio ≤ b.participacion_promedio))
    (stats df)

/-- contrib is a record's numeric contribution to a NaN-skipping sum. -/
def contrib (r : LongRecord) : ℚ := r.value.getD 0

theorem pandasSum_values_eq (df : List LongRecord) :
    pandasSum (values df) = (df.map contrib).sum := by
  rw [pandasSum_eq_sum_getD]
  unfold values contrib
  rw [List.map_map]
  rfl

theorem sum_filter_split {α : Type} (f : α → ℚ) (p : α → Bool) (l : List α) :
    ((l.filter p).map f).sum + ((l.filter (fun x => !p x)).map f).sum = (l.map f).sum := by
  have hperm := List.filter_append_perm p l
  calc ((l.filter p).map f).sum + ((l.filter (fun x => !p x)).map f).sum
      = ((l.filter p ++ l.filter (fun x => !p x)).map f).sum := by
        rw [List.map_append, List.sum_append]
    _ = (l.map f).sum := (hperm.map f).sum_eq

theorem sum_over_groups (key : LongRecord → String) (ks : List String)
    (df : List LongRecord) (hnd : ks.Nodup) (hcov : ∀ r ∈ df, key r ∈ ks) :
    (ks.map (fun k => ((df.filter (fun r => decide (key r = k))).map contrib).sum)).sum
      = (df.map contrib).sum := by
  induction ks generalizing df with
  | nil =>
    cases df with
    | nil => simp
    | cons r t => exact absurd (hcov r (List.mem_cons_self ..)) (by simp)
  | cons k ks ih =>
    simp only [List.map_cons, List.sum_cons]
    obtain ⟨hk, hnd'⟩ := List.nodup_cons.mp hnd
    have hgroups : ∀ k2 ∈ ks,
        df.filter (fun r => decide (key r = k2))
          = (df.filter (fun r => !(decide (key r = k)))).filter
              (fun r => decide (key r = k2)) := by
      intro k2 hk2
      rw [List.filter_filter]
      apply List.filter_congr
      intro r hr
      have hne2 : ¬ k2 = k := fun he => hk (he ▸ hk2)
      by_cases h : key r = k2
      · have hne : ¬ key r = k := by
          rw [h]
          exact fun he => hk (he ▸ hk2)
        simp [h, hne, hne2]
      · simp [h]
    have hcongr :
        ks.map (fun k2 => ((df.filter (fun r => decide (key r = k2))).map contrib).sum)
          = ks.map (fun k2 => (((df.filter (fun r => !(decide (key r = k)))).filter
              (fun r => decide (key r = k2))).map contrib).sum) := by
      apply List.map_congr_left
      intro k2 hk2
      rw [hgroups k2 hk2]
    have hih := ih (df.filter (fun r => !(decide (key r = k)))) hnd' (by
      intro r hr
      obtain ⟨hrdf, hrp⟩ := List.mem_filter.mp hr
      rcases List.mem_cons.mp (hcov r hrdf) with he | hm
      · exfalso
        simp only [he] at hrp
        simp at hrp
      · exact hm)
    rw [hcongr, hih]
    exact sum_filter_split contrib (fun r => decide (key r = k)) df

theorem sum_map_div_mul (l : List ℚ) (T c : ℚ) :
    (l.map (fun s => s / T * c)).sum = l.sum / T * c := by
  induction l with
  | nil => simp
  | cons x xs ih =>
    simp only [List.map_cons, List.sum_cons, ih]
    ring

/-- C6: for every long table and closed interval, the date filter keeps
exactly the records with start ≤ date ≤ end (inclusive on both ends), a
degenerate interval (start = end) keeps exactly that instant's records,
and the filter is idempotent: filtering an already-filtered table by the
same interval returns it unchanged. -/
theorem C6_date_filter_inclusive_idempotent (df : List LongRecord) (s e : Date) :
    (∀ r : LongRecord, r ∈ df_filtered df s e ↔
        r ∈ df ∧ dateLe s r.fecha ∧ dateLe r.fecha e)
    ∧ df_filtered df s s = df.filter (fun r => decide (r.fecha = s))
    ∧ df_filtered (df_filtered df s e) s e = df_filtered df s e := by
  refine ⟨?_, ?_, ?_⟩
  · intro r
    unfold df_filtered dateLeB
    rw [List.mem_filter]
    simp
  · unfold df_filtered dateLeB
    apply List.filter_congr
    intro r hr
    by_cases h : r.fecha = s
    · simp [h, dateLe_refl]
    · by_cases h1 : dateLe s r.fecha
      · have h2 : ¬ dateLe r.fecha s := fun h2 => h (dateLe_antisymm h2 h1)
        simp [h, h1, h2]
      · simp [h, h1]
  · unfold df_filtered
    rw [List.filter_filter]
    apply List.filter_congr
    intro r hr
    rw [Bool.and_self]

theorem mem_sorted_dedup_fechas {df : List LongRecord} {d : Date} :
    d ∈ isortBy dateLeB (fechas df).dedup ↔ d ∈ fechas df := by
  rw [(isortBy_perm _ _).mem_iff, List.mem_dedup]

theorem dictGet_groupbyFechaSum (df : List LongRecord) (d : Date) (hd : d ∈ fechas df) :
    dictGet d (groupbyFechaSum df)
      = some (pandasSum (values (df.filter (fun r => decide (r.fecha = d))))) := by
  unfold groupbyFechaSum
  rw [dictGet_map_key, if_pos (mem_sorted_dedup_fechas.mpr hd)]

theorem dictGet_groupbyFechaMean (df : List LongRecord) (d : Date) (hd : d ∈ fechas df) :
    dictGet d (groupbyFechaMean df)
      = some (pandasMean (values (df.filter (fun r => decide (r.fecha = d))))) := by
  unfold groupbyFechaMean
  rw [dictGet_map_key, if_pos (mem_sorted_dedup_fechas.mpr hd)]

/-- C2: at every date appearing in the (selected) data, the per-company
series holds the NaN-skipping sum (extensive pages: energia/potencia)
respectively the arithmetic mean (intensive pages: capacity price,
generation toll) of the record values of that company sharing that
date, and the system series holds the sum respectively the mean of all
record values sharing that date. -/
theorem C2_company_and_system_series (df : List LongRecord) (e : String) (d : Date) :
    (d ∈ fechas (df_empresa df e) →
      dictGet d (df_empresa_prom df e)
        = some (pandasSum (values (df.filter
            (fun r => decide (r.fecha = d) && decide (r.empresa = e))))))
    ∧ (d ∈ fechas df →
      dictGet d (df_sistema df)
        = some (pandasSum (values (df.filter (fun r => decide (r.fecha = d))))))
    ∧ (d ∈ fechas (df_empresa df e) →
      dictGet d (df_empresa_prom_mean df e)
        = some (pandasMean (values (df.filter
            (fun r => decide (r.fecha = d) && decide (r.empresa = e))))))
    ∧ (d ∈ fechas df →
      dictGet d (df_sistema_mean df)
        = some (pandasMean (values (df.filter (fun r => decide (r.fecha = d)))))) := by
  refine ⟨?_, ?_, ?_, ?_⟩
  · intro hd
    unfold df_empresa_prom
    rw [dictGet_groupbyFechaSum _ _ hd]
    unfold df_empresa
    rw [List.filter_filter]
  · exact fun hd => dictGet_groupbyFechaSum df d hd
  · intro hd
    unfold df_empresa_prom_mean
    rw [dictGet_groupbyFechaMean _ _ hd]
    unfold df_empresa
    rw [List.filter_filter]
  · exact fun hd => dictGet_groupbyFechaMean df d hd

/-- dfC2 is the example table of the spec: company EMPRESA_A with
agents X = 100 and Y = 200 on 2023-01-01, and EMPRESA_B with 700. -/
def dfC2 : List LongRecord :=
  [⟨"X", "EMPRESA_A", ⟨2023, 1, 1⟩, some 100, []⟩,
   ⟨"Y", "EMPRESA_A", ⟨2023, 1, 1⟩, some 200, []⟩,
   ⟨"Z", "EMPRESA_B", ⟨2023, 1, 1⟩, some 700, []⟩]

/-- Witness for C2: on the spec's example the EMPRESA_A series value at
2023-01-01 is 100 + 200 = 300 and the system series value is 1000. -/
theorem C2_witness :
    dictGet ⟨2023, 1, 1⟩ (df_empresa_prom dfC2 "EMPRESA_A") = some 300
    ∧ dictGet ⟨2023, 1, 1⟩ (df_sistema dfC2) = some 1000 := by
  constructor
  · have h := (C2_company_and_system_series dfC2 "EMPRESA_A" ⟨2023, 1, 1⟩).1
      (by decide)
    rw [h]
    simp [dfC2, values, pandasSum]
    norm_num
  · have h := (C2_company_and_system_series dfC2 "EMPRESA_A" ⟨2023, 1, 1⟩).2.1
      (by decide)
    rw [h]
    simp [dfC2, values, pandasSum]
    norm_num

/-- dfC3 is a filtered table whose system total is zero. -/
def dfC3 : List LongRecord := [⟨"X", "E", ⟨2023, 1, 1⟩, some 0, []⟩]

/-- Counterexample for C3: with a zero system total the page does not
present "no data"; the participation metric is NaN and the rendered
string is "nan%". -/
theorem C3_counterexample :
    total_potencia_sistema dfC3 = 0
    ∧ porcentaje_agente dfC3 "X" = NpFloat.nan
    ∧ fmtPct (porcentaje_agente dfC3 "X") = "nan%"
    ∧ ("nan%" : String) ≠ "no data" := by
  have ht : total_potencia_sistema dfC3 = 0 := by
    simp [total_potencia_sistema, dfC3, values, pandasSum]
  have ha : pandasSum (values (df_agente dfC3 "X")) = 0 := by
    simp [df_agente, dfC3, values, pandasSum]
  have hp : porcentaje_agente dfC3 "X" = NpFloat.nan := by
    unfold porcentaje_agente
    rw [ht, ha]
    simp [npDiv, npMul100]
  exact ⟨ht, hp, by rw [hp]; rfl, by decide⟩

/-- C3 amended: computing a participation ratio against a zero system
total never raises (numpy division yields a value), and the result is
never a finite percentage — it is NaN or a signed infinity, rendered as
"nan%", "inf%" or "-inf%", none of which is the string "no data" (and
in particular it is not the number 0). -/
theorem C3_zero_total_not_finite (df : List LongRecord) (a e : String)
    (h : total_potencia_sistema df = 0) :
    (∀ q : ℚ, porcentaje_agente df a ≠ NpFloat.fin q)
    ∧ (∀ q : ℚ, porcentaje_empresa df e ≠ NpFloat.fin q)
    ∧ fmtPct (porcentaje_agente df a) ≠ "no data"
    ∧ fmtPct (porcentaje_empresa df e) ≠ "no data" := by
  have hagd : ∀ x : ℚ, npMul100 (npDiv x 0) ≠ NpFloat.fin 0 ∧
      (∀ q : ℚ, npMul100 (npDiv x 0) ≠ NpFloat.fin q) ∧
      fmtPct (npMul100 (npDiv x 0)) ≠ "no data" := by
    intro x
    unfold npDiv
    rw [if_pos rfl]
    by_cases hx : x = 0
    · rw [if_pos hx]
      exact ⟨by simp [npMul100], fun q => by simp [npMul100], by simp [npMul100, fmtPct]⟩
    · rw [if_neg hx]
      by_cases hx2 : 0 < x
      · rw [if_pos hx2]
        exact ⟨by simp [npMul100], fun q => by simp [npMul100], by simp [npMul100, fmtPct]⟩
      · rw [if_neg hx2]
        exact ⟨by simp [npMul100], fun q => by simp [npMul100], by simp [npMul100, fmtPct]⟩
  unfold porcentaje_agente porcentaje_empresa
  rw [h]
  exact ⟨(hagd _).2.1, (hagd _).2.1, (hagd _).2.2, (hagd _).2.2⟩

/-- Witness for C3's amended statement at the concrete zero-total
table. -/
theorem C3_witness :
    (∀ q : ℚ, porcentaje_agente dfC3 "X" ≠ NpFloat.fin q)
    ∧ fmtPct (porcentaje_agente dfC3 "X") ≠ "no data" := by
  have h := C3_zero_total_not_finite dfC3 "X" "E"
    (by simp [total_potencia_sistema, dfC3, values, pandasSum])
  exact ⟨h.1, h.2.2.1⟩

/-- C7: when the system total is non-zero, the per-company
participation percentages of the `participacion` table (which partitions
the filtered records by company, excluding no entity) sum to exactly
100 in the rational model (up to floating-point rounding in the
implementation). -/
theorem C7_participation_sums_to_100 (df : List LongRecord)
    (h : total_potencia_sistema df ≠ 0) :
    ((participacion df).map (fun p => p.2.2)).sum = 100 := by
  unfold participacion
  rw [((sort_values_desc_perm (fun a b => decide (a.2.2 ≤ b.2.2))
    ((groupbyEmpresaSum df).map fun p =>
      (p.1, p.2, p.2 / total_potencia_sistema df * 100))).map
        (fun p : String × ℚ × ℚ => p.2.2)).sum_eq]
  rw [List.map_map]
  unfold groupbyEmpresaSum
  rw [List.map_map]
  have hfun : (((fun p : String × ℚ × ℚ => p.2.2) ∘
      (fun p : String × ℚ => (p.1, p.2, p.2 / total_potencia_sistema df * 100))) ∘
      (fun e => (e, pandasSum (values (df_empresa df e)))))
      = (fun s => s / total_potencia_sistema df * 100) ∘
        (fun e => ((df.filter (fun r => decide (r.empresa = e))).map contrib).sum) := by
    funext e
    simp only [Function.comp]
    rw [← pandasSum_values_eq]
    rfl
  rw [hfun, ← List.map_map, sum_map_div_mul]
  have hkeys_nodup : (isortBy strLe (df.map (fun r => r.empresa)).dedup).Nodup :=
    ((isortBy_perm _ _).nodup_iff).mpr (List.nodup_dedup _)
  have hcov : ∀ r ∈ df, r.empresa ∈ isortBy strLe (df.map (fun r => r.empresa)).dedup := by
    intro r hr
    rw [(isortBy_perm _ _).mem_iff, List.mem_dedup]
    exact List.mem_map.mpr ⟨r, hr, rfl⟩
  rw [sum_over_groups (fun r => r.empresa) _ df hkeys_nodup hcov]
  have hT : total_potencia_sistema df = (df.map contrib).sum := by
    unfold total_potencia_sistema
    exact pandasSum_values_eq df
  rw [← hT, div_self h, one_mul]

/-- dfC7 is a two-company table with a non-zero system total (the
spec's 300 / 700 example). -/
def dfC7 : List LongRecord :=
  [⟨"X", "EMPRESA_A", ⟨2023, 1, 1⟩, some 300, []⟩,
   ⟨"Y", "EMPRESA_B", ⟨2023, 1, 1⟩, some 700, []⟩]

/-- Witness for C7 at the concrete example table. -/
theorem C7_witness : ((participacion dfC7).map (fun p => p.2.2)).sum = 100 :=
  C7_participation_sums_to_100 dfC7 (by
    simp [total_potencia_sistema, dfC7, values, pandasSum]
    norm_num)

theorem length_filterMap_some {α β : Type} (f : α → β) (l : List α) :
    (l.filterMap (fun x => some (f x))).length = l.length := by
  induction l with
  | nil => rfl
  | cons a t ih => simp [List.filterMap_cons, ih]

theorem length_filterMap_none {α β : Type} (l : List α) :
    (l.filterMap (fun _ => (none : Option β))).length = 0 := by
  induction l with
  | nil => rfl
  | cons a t ih => simpa [List.filterMap_cons] using ih

theorem energiaCol_filterMap_length (t : RawTable) (ic : ℕ × Str) :
    ((energiaCol t ic).filterMap toLongRecord).length
      = if (parseMMYYYY (lastToken ic.2)).isSome then t.rows.length else 0 := by
  unfold energiaCol
  rw [List.filterMap_map]
  cases hp : parseMMYYYY (lastToken ic.2) with
  | some d =>
    simp only [hp, Option.isSome_some, if_true]
    have : (toLongRecord ∘ fun r : RawRow =>
        (⟨r.agente, r.empresa, some d, (cellAt r ic.1).asNum, lastToken ic.2⟩ : PreRecord))
        = fun r : RawRow => some (⟨r.agente, r.empresa, d, (cellAt r ic.1).asNum,
            lastToken ic.2⟩ : LongRecord) := by
      funext r
      rfl
    rw [this, length_filterMap_some]
  | none =>
    have h2 : (toLongRecord ∘ fun r : RawRow =>
        (⟨r.agente, r.empresa, none, (cellAt r ic.1).asNum, lastToken ic.2⟩ : PreRecord))
        = fun _ : RawRow => (none : Option LongRecord) := by
      funext r
      rfl
    rw [h2, length_filterMap_none]
    simp

theorem sum_map_ite_le {α : Type} (l : List α) (f : α → Bool) (c : ℕ) :
    (l.map (fun x => if f x then c else 0)).sum ≤ l.length * c := by
  induction l with
  | nil => simp
  | cons a t ih =>
    simp only [List.map_cons, List.sum_cons, List.length_cons]
    by_cases hf : f a
    · rw [if_pos hf]
      calc c + (t.map (fun x => if f x then c else 0)).sum ≤ c + t.length * c := by omega
        _ = (t.length + 1) * c := by ring
    · rw [if_neg hf]
      calc 0 + (t.map (fun x => if f x then c else 0)).sum ≤ t.length * c := by omega
        _ ≤ (t.length + 1) * c := by
          have : t.length * c ≤ (t.length + 1) * c := Nat.mul_le_mul_right c (by omega)
          omega

theorem sum_map_ite_eq_full {α : Type} {l : List α} {f : α → Bool} {c : ℕ} (hc : 0 < c)
    (h : (l.map (fun x => if f x then c else 0)).sum = l.length * c) :
    ∀ x ∈ l, f x = true := by
  induction l with
  | nil => simp
  | cons a t ih =>
    simp only [List.map_cons, List.sum_cons, List.length_cons] at h
    have hle := sum_map_ite_le t f c
    by_cases hf : f a
    · rw [if_pos hf] at h
      intro x hx
      rcases List.mem_cons.mp hx with rfl | hxt
      · exact hf
      · refine ih ?_ x hxt
        have : (t.length + 1) * c = c + t.length * c := by ring
        omega
    · rw [if_neg hf] at h
      exfalso
      have : (t.length + 1) * c = t.length * c + c := by ring
      omega

theorem energiaTransform_length (t : RawTable) :
    (energiaTransform t).length
      = ((selectedCols labelEnergia t).map
          (fun ic => if (parseMMYYYY (lastToken ic.2)).isSome then t.rows.length else 0)).sum := by
  unfold energiaTransform
  rw [List.filterMap_flatten, List.length_flatten, List.map_map, List.map_map]
  congr 1
  apply List.map_congr_left
  intro ic hic
  exact energiaCol_filterMap_length t ic

theorem peajeTransform_some {t : RawTable} {out : List LongRecord}
    (h : peajeTransform t = some out) :
    out = (((selectedCols labelPeaje t).filterMap (peajeCol t)).flatten).filter
      (fun r => r.value.isSome) := by
  simp only [peajeTransform] at h
  split at h
  · simp at h
  · rw [Option.some.injEq] at h
    exact h.symm

theorem peajeCol_some {t : RawTable} {ic : ℕ × Str} {l : List LongRecord}
    (h : peajeCol t ic = some l) :
    ∃ d, parsePeaje (trim (lastToken ic.2)) = some d ∧
      l = t.rows.map (fun r =>
        (⟨r.agente, r.empresa, d, toNumericCell (cellAt r ic.1),
          trim (lastToken ic.2)⟩ : LongRecord)) := by
  simp only [peajeCol] at h
  split at h
  · simp at h
  case h_2 d hd =>
    rw [Option.some.injEq] at h
    exact ⟨d, hd, h.symm⟩

theorem sum_const_of_all {α : Type} (L : List α) (f : α → ℕ) (c : ℕ)
    (h : ∀ x ∈ L, f x = c) : (L.map f).sum = L.length * c := by
  induction L with
  | nil => simp
  | cons a t ih =>
    simp only [List.map_cons, List.sum_cons, List.length_cons]
    rw [h a (List.mem_cons_self ..), ih (fun x hx => h x (List.mem_cons_of_mem _ hx))]
    ring

theorem filterMap_full {α β : Type} {f : α → Option β} {l : List α}
    (h : (l.filterMap f).length = l.length) : ∀ x ∈ l, (f x).isSome = true := by
  induction l with
  | nil => simp
  | cons a t ih =>
    rw [List.filterMap_cons] at h
    cases hf : f a with
    | none =>
      rw [hf] at h
      have := List.length_filterMap_le f t
      simp only [List.length_cons] at h
      omega
    | some b =>
      rw [hf] at h
      simp only [List.length_cons] at h
      intro x hx
      rcases List.mem_cons.mp hx with rfl | hxt
      · rw [hf]
        rfl
      · exact ih (by omega) x hxt

/-- C5: for both reshape implementations, the long table never has more
than (selected columns) × (raw rows) records; on a non-empty raw table
equality forces every selected column's period to have parsed; and
every record's date is the first day of its month. -/
theorem C5_reshape_row_bound :
    (∀ t : RawTable, t.rows ≠ [] →
      (energiaTransform t).length ≤ (selectedCols labelEnergia t).length * t.rows.length
      ∧ ((energiaTransform t).length
            = (selectedCols labelEnergia t).length * t.rows.length →
          ∀ ic ∈ selectedCols labelEnergia t, (parseMMYYYY (lastToken ic.2)).isSome = true)
      ∧ (∀ r ∈ energiaTransform t, r.fecha.d = 1))
    ∧ (∀ (t : RawTable) (out : List LongRecord), peajeTransform t = some out →
        t.rows ≠ [] →
      out.length ≤ (selectedCols labelPeaje t).length * t.rows.length
      ∧ (out.length = (selectedCols labelPeaje t).length * t.rows.length →
          ∀ ic ∈ selectedCols labelPeaje t,
            (parsePeaje (trim (lastToken ic.2))).isSome = true)
      ∧ (∀ r ∈ out, r.fecha.d = 1)) := by
  constructor
  · intro t hne
    refine ⟨?_, ?_, ?_⟩
    · rw [energiaTransform_length]
      exact sum_map_ite_le _ _ _
    · intro heq
      rw [energiaTransform_length] at heq
      exact sum_map_ite_eq_full (List.length_pos.mpr hne) heq
    · intro r hr
      unfold energiaTransform at hr
      obtain ⟨p, hp, he⟩ := List.mem_filterMap.mp hr
      obtain ⟨l, hl, hpl⟩ := List.mem_flatten.mp hp
      obtain ⟨ic, hic, rfl⟩ := List.mem_map.mp hl
      unfold energiaCol at hpl
      obtain ⟨row, hrow, rfl⟩ := List.mem_map.mp hpl
      unfold toLongRecord at he
      cases hparse : parseMMYYYY (lastToken ic.2) with
      | none =>
        rw [hparse] at he
        simp at he
      | some d =>
        rw [hparse] at he
        simp only [Option.some.injEq] at he
        have hd := (parseMMYYYY_sound hparse).2.2.2.1
        rw [← he]
        exact hd
  · intro t out hout hne
    have hrep := peajeTransform_some hout
    have hlen_flat : (((selectedCols labelPeaje t).filterMap (peajeCol t)).flatten).length
        = ((selectedCols labelPeaje t).filterMap (peajeCol t)).length * t.rows.length := by
      rw [List.length_flatten]
      apply sum_const_of_all
      intro l hl
      obtain ⟨ic, hic, hcol⟩ := List.mem_filterMap.mp hl
      obtain ⟨d, hd, rfl⟩ := peajeCol_some hcol
      simp
    have hdfs_le : ((selectedCols labelPeaje t).filterMap (peajeCol t)).length
        ≤ (selectedCols labelPeaje t).length := List.length_filterMap_le _ _
    refine ⟨?_, ?_, ?_⟩
    · rw [hrep]
      calc ((((selectedCols labelPeaje t).filterMap (peajeCol t)).flatten).filter
            (fun r => r.value.isSome)).length
          ≤ (((selectedCols labelPeaje t).filterMap (peajeCol t)).flatten).length :=
            List.length_filter_le _ _
        _ = ((selectedCols labelPeaje t).filterMap (peajeCol t)).length * t.rows.length :=
            hlen_flat
        _ ≤ (selectedCols labelPeaje t).length * t.rows.length :=
            Nat.mul_le_mul_right _ hdfs_le
    · intro heq
      have hfilter_le : out.length
          ≤ (((selectedCols labelPeaje t).filterMap (peajeCol t)).flatten).length := by
        rw [hrep]
        exact List.length_filter_le _ _
      have hrows_pos : 0 < t.rows.length := List.length_pos.mpr hne
      have hge : (selectedCols labelPeaje t).length * t.rows.length
          ≤ ((selectedCols labelPeaje t).filterMap (peajeCol t)).length * t.rows.length := by
        calc (selectedCols labelPeaje t).length * t.rows.length
            = out.length := heq.symm
          _ ≤ (((selectedCols labelPeaje t).filterMap (peajeCol t)).flatten).length :=
              hfilter_le
          _ = ((selectedCols labelPeaje t).filterMap (peajeCol t)).length * t.rows.length :=
              hlen_flat
      have hfull : ((selectedCols labelPeaje t).filterMap (peajeCol t)).length
          = (selectedCols labelPeaje t).length :=
        le_antisymm hdfs_le (Nat.le_of_mul_le_mul_right hge hrows_pos)
      intro ic hic
      have hsome := filterMap_full hfull ic hic
      simp only [peajeCol] at hsome
      cases hparse : parsePeaje (trim (lastToken ic.2)) with
      | none =>
        rw [hparse] at hsome
        simp at hsome
      | some d => rfl
    · intro r hr
      rw [hrep] at hr
      have hr2 := List.mem_of_mem_filter hr
      obtain ⟨l, hl, hrl⟩ := List.mem_flatten.mp hr2
      obtain ⟨ic, hic, hcol⟩ := List.mem_filterMap.mp hl
      obtain ⟨d, hd, rfl⟩ := peajeCol_some hcol
      obtain ⟨row, hrow, rfl⟩ := List.mem_map.mp hrl
      exact (parsePeaje_sound hd).1

/-- tC5 is a one-row raw table with one parseable and one unparseable
energia column. -/
def tC5 : RawTable :=
  ⟨["Energía MWh 012023".data, "Energía MWh 999999".data],
   [⟨"X", "E", [Cell.blank, Cell.blank]⟩]⟩

/-- tC5p is a one-row raw peaje table whose only column parses and whose
only cell is blank (so the value dropna empties the output). -/
def tC5p : RawTable :=
  ⟨["Peaje generación USD/MWh 102024".data], [⟨"X", "E", [Cell.blank]⟩]⟩

/-- Witness for C5 at the concrete tables. -/
theorem C5_witness :
    (energiaTransform tC5).length ≤ (selectedCols labelEnergia tC5).length * tC5.rows.length
    ∧ (∀ r ∈ energiaTransform tC5, r.fecha.d = 1)
    ∧ ([] : List LongRecord).length
        ≤ (selectedCols labelPeaje tC5p).length * tC5p.rows.length := by
  have h1 := C5_reshape_row_bound.1 tC5 (by decide)
  have h2 := C5_reshape_row_bound.2 tC5p [] (by decide) (by decide)
  exact ⟨h1.1, h1.2.2, h2.1⟩

/-- tC4 is a raw table in which the same agent appears on two rows. -/
def tC4 : RawTable :=
  ⟨["Energía MWh 012023".data],
   [⟨"X", "E", [Cell.blank]⟩, ⟨"X", "E", [Cell.blank]⟩]⟩

/-- Counterexample for C4: nothing deduplicates rows, so with a
duplicated AGENTE the reshaped long table holds two records for the
same (agent, date) pair. -/
theorem C4_counterexample :
    (energiaTransform tC4).countP
      (fun r => decide (r.agente = "X") && decide (r.fecha = ⟨2023, 1, 1⟩)) = 2 := by
  decide

theorem countP_eq_le_one_of_nodup {α : Type} [DecidableEq α] {l : List α} (h : l.Nodup)
    (a : α) : l.countP (fun x => decide (x = a)) ≤ 1 := by
  induction l with
  | nil => simp
  | cons x t ih =>
    obtain ⟨hx, ht⟩ := List.nodup_cons.mp h
    rw [List.countP_cons]
    by_cases he : x = a
    · subst he
      have h0 : t.countP (fun y => decide (y = x)) = 0 := List.countP_eq_zero.mpr (by
        intro b hb hbe
        rw [decide_eq_true_eq] at hbe
        exact hx (hbe ▸ hb))
      simp [h0]
    · have := ih ht
      simp [he]
      omega

theorem filterMap_some_fn {α β : Type} (g : α → β) (l : List α) :
    l.filterMap (fun x => some (g x)) = l.map g := by
  induction l with
  | nil => rfl
  | cons a t ih => simp [List.filterMap_cons, ih]

theorem countP_some_le_one_of_filterMap_nodup {α β : Type} [DecidableEq β]
    {f : α → Option β} {l : List α} (h : (l.filterMap f).Nodup) (d : β) :
    l.countP (fun x => decide (f x = some d)) ≤ 1 := by
  induction l with
  | nil => simp
  | cons a t ih =>
    rw [List.countP_cons]
    cases hf : f a with
    | none =>
      rw [List.filterMap_cons, hf] at h
      have := ih h
      simp [hf]
      omega
    | some b =>
      rw [List.filterMap_cons, hf] at h
      obtain ⟨hb, ht⟩ := List.nodup_cons.mp h
      by_cases hbd : b = d
      · subst hbd
        have h0 : t.countP (fun x => decide (f x = some b)) = 0 := by
          apply List.countP_eq_zero.mpr
          intro x hx hfx
          rw [decide_eq_true_eq] at hfx
          exact hb (List.mem_filterMap.mpr ⟨x, hx, hfx⟩)
        simp [hf, h0]
      · have h1 := ih ht
        rw [if_neg (by simp [hf, hbd])]
        omega

theorem sum_ite_single_prop {α : Type} {l : List α} {P : α → Prop} [DecidablePred P]
    {cN : α → ℕ} (hc : ∀ x ∈ l, cN x ≤ 1)
    (hsingle : l.countP (fun x => decide (P x)) ≤ 1) :
    (l.map (fun x => if P x then cN x else 0)).sum ≤ 1 := by
  induction l with
  | nil => simp
  | cons a t ih =>
    rw [List.countP_cons] at hsingle
    simp only [List.map_cons, List.sum_cons]
    by_cases hP : P a
    · rw [if_pos hP]
      rw [if_pos (by simpa using hP)] at hsingle
      have h0 : t.countP (fun x => decide (P x)) = 0 := by omega
      have hz : (t.map (fun x => if P x then cN x else 0)).sum = 0 := by
        apply List.sum_eq_zero
        intro y hy
        obtain ⟨x, hx, rfl⟩ := List.mem_map.mp hy
        have hnx : ¬ P x := by
          have := List.countP_eq_zero.mp h0 x hx
          simpa using this
        rw [if_neg hnx]
      have hca := hc a (List.mem_cons_self ..)
      omega
    · rw [if_neg hP]
      rw [if_neg (by simpa using hP)] at hsingle
      have := ih (fun x hx => hc x (List.mem_cons_of_mem _ hx)) (by omega)
      omega

theorem energiaCol_countP (t : RawTable) (ic : ℕ × Str) (a : String) (d : Date) :
    ((energiaCol t ic).filterMap toLongRecord).countP
      (fun r => decide (r.agente = a) && decide (r.fecha = d))
    = if parseMMYYYY (lastToken ic.2) = some d
      then t.rows.countP (fun r => decide (r.agente = a)) else 0 := by
  unfold energiaCol
  rw [List.filterMap_map]
  cases hp : parseMMYYYY (lastToken ic.2) with
  | some d2 =>
    have hcomp : (toLongRecord ∘ fun r : RawRow =>
        (⟨r.agente, r.empresa, some d2, (cellAt r ic.1).asNum, lastToken ic.2⟩ : PreRecord))
        = fun r : RawRow => some (⟨r.agente, r.empresa, d2, (cellAt r ic.1).asNum,
            lastToken ic.2⟩ : LongRecord) := by
      funext r
      rfl
    rw [hcomp, filterMap_some_fn, List.countP_map]
    by_cases hd : d2 = d
    · subst hd
      rw [if_pos rfl]
      apply List.countP_congr
      intro r hr
      simp
    · rw [if_neg (by simpa [Option.some.injEq] using hd)]
      apply List.countP_eq_zero.mpr
      intro r hr hcontra
      simp only [Function.comp] at hcontra
      rw [Bool.and_eq_true, decide_eq_true_eq, decide_eq_true_eq] at hcontra
      exact hd hcontra.2
  | none =>
    have hcomp : (toLongRecord ∘ fun r : RawRow =>
        (⟨r.agente, r.empresa, none, (cellAt r ic.1).asNum, lastToken ic.2⟩ : PreRecord))
        = fun _ : RawRow => (none : Option LongRecord) := by
      funext r
      rfl
    rw [hcomp]
    have : t.rows.filterMap (fun _ : RawRow => (none : Option LongRecord)) = [] := by
      induction t.rows with
      | nil => rfl
      | cons x xs ih => simpa [List.filterMap_cons] using ih
    rw [this]
    simp

/-- colDatesEnergia lists the resolved dates of the selected columns. -/
def colDatesEnergia (t : RawTable) : List Date :=
  (selectedCols labelEnergia t).filterMap (fun ic => parseMMYYYY (lastToken ic.2))

theorem energia_at_most_one (t : RawTable)
    (h1 : (t.rows.map (fun r => r.agente)).Nodup)
    (h2 : (colDatesEnergia t).Nodup) (a : String) (d : Date) :
    (energiaTransform t).countP
      (fun r => decide (r.agente = a) && decide (r.fecha = d)) ≤ 1 := by
  unfold energiaTransform
  rw [List.filterMap_flatten, List.countP_flatten, List.map_map, List.map_map]
  have hterm : ∀ ic ∈ selectedCols labelEnergia t,
      (((List.countP (fun r => decide (r.agente = a) && decide (r.fecha = d)) ∘
        List.filterMap toLongRecord) ∘ energiaCol t) ic)
      = if parseMMYYYY (lastToken ic.2) = some d
        then t.rows.countP (fun r => decide (r.agente = a)) else 0 := by
    intro ic hic
    exact energiaCol_countP t ic a d
  rw [List.map_congr_left hterm]
  have hagent : t.rows.countP (fun r => decide (r.agente = a)) ≤ 1 := by
    have := countP_eq_le_one_of_nodup h1 a
    rwa [List.countP_map] at this
  refine sum_ite_single_prop (fun ic hic => hagent) ?_
  exact countP_some_le_one_of_filterMap_nodup h2 d

/-- colDatesPeaje lists the resolved dates of the selected peaje columns
(two distinct period tokens can resolve to the same date across the
5- and 6-digit encodings, so distinctness is asked of the dates). -/
def colDatesPeaje (t : RawTable) : List Date :=
  (selectedCols labelPeaje t).filterMap (fun ic => parsePeaje (trim (lastToken ic.2)))

theorem countP_filter_le {α : Type} (p q : α → Bool) (l : List α) :
    (l.filter q).countP p ≤ l.countP p := by
  induction l with
  | nil => simp
  | cons a t ih =>
    rw [List.filter_cons, List.countP_cons]
    by_cases hq : q a = true
    · rw [if_pos hq, List.countP_cons]
      omega
    · rw [if_neg hq]
      omega

theorem sum_map_filterMap {α β : Type} (f : α → Option β) (g : β → ℕ) (l : List α) :
    ((l.filterMap f).map g).sum = (l.map (fun x => ((f x).map g).getD 0)).sum := by
  induction l with
  | nil => rfl
  | cons x t ih =>
    cases hf : f x with
    | none => simp [List.filterMap_cons, hf, ih]
    | some b => simp [List.filterMap_cons, hf, ih]

theorem peajeCol_countP (t : RawTable) (ic : ℕ × Str) (a : String) (d : Date) :
    ((peajeCol t ic).map (List.countP
        (fun r => decide (r.agente = a) && decide (r.fecha = d)))).getD 0
    = if parsePeaje (trim (lastToken ic.2)) = some d
      then t.rows.countP (fun r => decide (r.agente = a)) else 0 := by
  cases hp : parsePeaje (trim (lastToken ic.2)) with
  | none =>
    have hc : peajeCol t ic = none := by
      simp [peajeCol, hp]
    rw [hc, if_neg (by simp [hp])]
    rfl
  | some dj =>
    have hc : peajeCol t ic = some (t.rows.map fun r =>
        (⟨r.agente, r.empresa, dj, toNumericCell (cellAt r ic.1),
          trim (lastToken ic.2)⟩ : LongRecord)) := by
      simp [peajeCol, hp]
    rw [hc]
    show (t.rows.map fun r =>
        (⟨r.agente, r.empresa, dj, toNumericCell (cellAt r ic.1),
          trim (lastToken ic.2)⟩ : LongRecord)).countP
        (fun r => decide (r.agente = a) && decide (r.fecha = d))
      = if (some dj : Option Date) = some d
        then t.rows.countP (fun r => decide (r.agente = a)) else 0
    rw [List.countP_map]
    by_cases hd : dj = d
    · subst hd
      rw [if_pos rfl]
      apply List.countP_congr
      intro r hr
      simp
    · rw [if_neg (by simp [hd])]
      apply List.countP_eq_zero.mpr
      intro r hr hcontra
      simp only [Function.comp] at hcontra
      rw [Bool.and_eq_true, decide_eq_true_eq, decide_eq_true_eq] at hcontra
      exact hd hcontra.2

theorem peaje_at_most_one (t : RawTable) (out : List LongRecord)
    (hout : peajeTransform t = some out)
    (h1 : (t.rows.map (fun r => r.agente)).Nodup)
    (h2 : (colDatesPeaje t).Nodup) (a : String) (d : Date) :
    out.countP (fun r => decide (r.agente = a) && decide (r.fecha = d)) ≤ 1 := by
  rw [peajeTransform_some hout]
  refine le_trans (countP_filter_le _ _ _) ?_
  rw [List.countP_flatten]
  rw [sum_map_filterMap (peajeCol t)
    (List.countP (fun r => decide (r.agente = a) && decide (r.fecha = d)))
    (selectedCols labelPeaje t)]
  rw [List.map_congr_left (fun ic _ => peajeCol_countP t ic a d)]
  have hagent : t.rows.countP (fun r => decide (r.agente = a)) ≤ 1 := by
    have := countP_eq_le_one_of_nodup h1 a
    rwa [List.countP_map] at this
  refine sum_ite_single_prop (fun ic hic => hagent) ?_
  exact countP_some_le_one_of_filterMap_nodup h2 d

/-- C4 amended: when no two raw rows share an AGENTE and no two selected
columns resolve to the same date — the well-formed shape of the input
data, which the code does not itself enforce — the reshaped long table
has at most one record per (agent, date) pair, both for the
energia-style melt (energia.py, potencia.py, precio_potencia.py) and
for the precios_peaje_distribucion.py reshape. -/
theorem C4_at_most_one_record :
    (∀ (t : RawTable), (t.rows.map (fun r => r.agente)).Nodup →
      (colDatesEnergia t).Nodup → ∀ (a : String) (d : Date),
      (energiaTransform t).countP
        (fun r => decide (r.agente = a) && decide (r.fecha = d)) ≤ 1)
    ∧ (∀ (t : RawTable) (out : List LongRecord), peajeTransform t = some out →
      (t.rows.map (fun r => r.agente)).Nodup →
      (colDatesPeaje t).Nodup → ∀ (a : String) (d : Date),
      out.countP
        (fun r => decide (r.agente = a) && decide (r.fecha = d)) ≤ 1) :=
  ⟨fun t h1 h2 a d => energia_at_most_one t h1 h2 a d,
   fun t out hout h1 h2 a d => peaje_at_most_one t out hout h1 h2 a d⟩

/-- tC4p is a well-formed peaje raw table: distinct agents, one
decodable column. -/
def tC4p : RawTable :=
  ⟨["Peaje generación USD/MWh 102024".data],
   [⟨"X", "E", [Cell.blank]⟩, ⟨"Y", "E", [Cell.blank]⟩]⟩

/-- Witness for C4's amended statement on well-formed tables, one per
reshape. -/
theorem C4_witness :
    (energiaTransform ⟨["Energía MWh 012023".data],
        [⟨"X", "E", [Cell.blank]⟩, ⟨"Y", "E", [Cell.blank]⟩]⟩).countP
      (fun r => decide (r.agente = "X") && decide (r.fecha = ⟨2023, 1, 1⟩)) ≤ 1
    ∧ ([] : List LongRecord).countP
      (fun r => decide (r.agente = "X") && decide (r.fecha = ⟨2024, 10, 1⟩)) ≤ 1 := by
  constructor
  · exact C4_at_most_one_record.1 _ (by decide) (by decide) "X" ⟨2023, 1, 1⟩
  · exact C4_at_most_one_record.2 tC4p [] (by decide) (by decide) (by decide)
      "X" ⟨2024, 10, 1⟩

/-- tC9 is a raw table whose only cell is blank, under a parseable
energia column. -/
def tC9 : RawTable :=
  ⟨["Energía MWh 012023".data], [⟨"X", "E", [Cell.blank]⟩]⟩

/-- Counterexample for C9: in energia.py (and potencia.py /
precio_potencia.py) only rows with an unresolved date are dropped, so
the blank-cell record is NOT excluded from the reshaped long table — it
survives with a missing value. -/
theorem C9_counterexample :
    energiaTransform tC9 = [⟨"X", "E", ⟨2023, 1, 1⟩, none, "012023".data⟩]
    ∧ ∃ r ∈ energiaTransform tC9, r.value = none := by
  refine ⟨by decide, ⟨"X", "E", ⟨2023, 1, 1⟩, none, "012023".data⟩, by decide, rfl⟩

/-- C9 amended: in precios_peaje_distribucion.py blank or unparseable
cells (after comma-stripping) are excluded from the long table (every
retained record has a present value); in the energia-style pages the
record survives the reshape carrying exactly the source cell's content,
a blank cell giving a missing value — never the number zero — which the
NaN-skipping sum and mean aggregations ignore. -/
theorem C9_missing_values_never_zero :
    (∀ (t : RawTable) (out : List LongRecord), peajeTransform t = some out →
        ∀ r ∈ out, r.value.isSome = true)
    ∧ (∀ (t : RawTable) (r : LongRecord), r ∈ energiaTransform t →
        ∃ row ∈ t.rows, ∃ ic ∈ selectedCols labelEnergia t,
          r.agente = row.agente ∧ r.empresa = row.empresa
          ∧ r.value = (cellAt row ic.1).asNum)
    ∧ (∀ vs, pandasSum (none :: vs) = pandasSum vs)
    ∧ (∀ vs, pandasMean (none :: vs) = pandasMean vs)
    ∧ Cell.blank.asNum = none
    ∧ toNumericCell (Cell.text "1,234.5".data) = some (2469 / 2) := by
  refine ⟨?_, ?_, pandasSum_skip_none, pandasMean_skip_none, rfl, ?_⟩
  · intro t out hout r hr
    rw [peajeTransform_some hout] at hr
    exact (List.mem_filter.mp hr).2
  · intro t r hr
    unfold energiaTransform at hr
    obtain ⟨p, hp, he⟩ := List.mem_filterMap.mp hr
    obtain ⟨l, hl, hpl⟩ := List.mem_flatten.mp hp
    obtain ⟨ic, hic, rfl⟩ := List.mem_map.mp hl
    unfold energiaCol at hpl
    obtain ⟨row, hrow, rfl⟩ := List.mem_map.mp hpl
    unfold toLongRecord at he
    cases hparse : parseMMYYYY (lastToken ic.2) with
    | none =>
      rw [hparse] at he
      simp at he
    | some d =>
      rw [hparse] at he
      simp only [Option.some.injEq] at he
      exact ⟨row, hrow, ic, hic, by rw [← he], by rw [← he], by rw [← he]⟩
  · have hstrip : ("1,234.5".data.filter (fun c => c ≠ ',')) = "1234.5".data := by decide
    have hsplit : (("1234.5".data : Str).splitOn '.') = ["1234".data, "5".data] := by decide
    have hip : parseNatDigits "1234".data = some 1234 := by decide
    have hfp : parseNatDigits "5".data = some 5 := by decide
    show parseFloatQ ("1,234.5".data.filter (fun c => c ≠ ',')) = some (2469 / 2)
    rw [hstrip]
    show parseUnsignedQ "1234.5".data = some (2469 / 2)
    unfold parseUnsignedQ
    rw [hsplit]
    show (match parseNatDigits "1234".data, parseNatDigits "5".data with
      | some n, some f => some ((n : ℚ) + (f : ℚ) / (10 : ℚ) ^ ("5".data : Str).length)
      | _, _ => none) = some (2469 / 2)
    rw [hip, hfp]
    show some ((1234 : ℚ) + (5 : ℚ) / (10 : ℚ) ^ ("5".data : Str).length) = some (2469 / 2)
    rw [show ("5".data : Str).length = 1 from by decide]
    norm_num

/-- tC9p is a one-column peaje table whose only cell is blank. -/
def tC9p : RawTable :=
  ⟨["Peaje generación USD/MWh 102024".data], [⟨"X", "E", [Cell.blank]⟩]⟩

/-- Witness for C9's amended statement. -/
theorem C9_witness :
    (∀ r ∈ ([] : List LongRecord), r.value.isSome = true)
    ∧ (∃ row ∈ tC9.rows, ∃ ic ∈ selectedCols labelEnergia tC9,
        ("X" : String) = row.agente ∧ ("E" : String) = row.empresa
        ∧ (none : Option ℚ) = (cellAt row ic.1).asNum) := by
  constructor
  · exact C9_missing_values_never_zero.1 tC9p [] (by decide)
  · exact C9_missing_values_never_zero.2.1 tC9
      ⟨"X", "E", ⟨2023, 1, 1⟩, none, "012023".data⟩ (by decide)

theorem strLe_refl (a : String) : strLe a a = true := by
  unfold strLe strLt
  rw [lexLt_irrefl]
  rfl

/-- C8 amended: over the faithful regime (all monthly system totals
non-zero), the stats table is sorted descending by mean participation;
but on ties the pandas `ascending=False` reversal of a stable ascending
argsort puts companies in REVERSED groupby order, i.e. company name
descending — not ascending as claimed.  The order is deterministic. -/
theorem C8_stats_sorted_desc_ties_name_descending (df : List LongRecord)
    (h : ∀ d ∈ fechas df,
      pandasSum (values (df.filter (fun r => decide (r.fecha = d)))) ≠ 0) :
    (stats_sorted df).Pairwise (fun a b =>
      b.participacion_promedio < a.participacion_promedio
      ∨ (a.participacion_promedio = b.participacion_promedio
          ∧ strLt b.empresa a.empresa = true)) := by
  have hkeys : (isortBy strLe
      ((df_participacion df).map (fun r => r.empresa)).dedup).Pairwise
        (fun a b => strLt a b = true) := by
    refine isortBy_pairwise_lex (q := strLe) (S := fun a b : String => a ≠ b)
      (W := fun a b : String => strLt a b = true)
      (fun a b c => strLe_trans) strLe_total ?_ ?_ ?_ (List.nodup_dedup _)
    · intro a b hab hnba
      rw [strLt_iff]
      refine ⟨hab, fun he => hnba ?_⟩
      subst he
      exact strLe_refl a
    · intro a b hab hba hne
      exact absurd (strLe_antisymm hab hba) hne
    · intro a b hW
      exact (strLt_iff.mp hW).1
  have hstats : (stats df).Pairwise
      (fun a b => strLt a.empresa b.empresa = true) := by
    unfold stats
    rw [List.pairwise_map]
    exact hkeys
  have hsorted := isortBy_pairwise_lex
    (q := fun a b : StatsRow =>
      decide (a.participacion_promedio ≤ b.participacion_promedio))
    (S := fun a b : StatsRow => strLt a.empresa b.empresa = true)
    (W := fun a b : StatsRow => a.participacion_promedio < b.participacion_promedio
      ∨ (a.participacion_promedio = b.participacion_promedio
          ∧ strLt a.empresa b.empresa = true))
    (by
      intro a b c hab hbc
      rw [decide_eq_true_eq] at hab hbc ⊢
      exact le_trans hab hbc)
    (by
      intro a b
      rcases le_total a.participacion_promedio b.participacion_promedio with hle | hle
      · exact Or.inl (decide_eq_true hle)
      · exact Or.inr (decide_eq_true hle))
    (by
      intro a b hab hnba
      rw [decide_eq_true_eq] at hab
      left
      refine lt_of_le_not_le hab (fun hba => hnba (decide_eq_true hba)))
    (by
      intro a b hab hba hS
      rw [decide_eq_true_eq] at hab hba
      exact Or.inr ⟨le_antisymm hab hba, hS⟩)
    (by
      intro a b hW
      rcases hW with hlt | ⟨heq, -⟩
      · exact decide_eq_true (le_of_lt hlt)
      · exact decide_eq_true (le_of_eq heq))
    hstats
  unfold stats_sorted sort_values_desc
  rw [List.pairwise_reverse]
  exact hsorted.imp (by
    intro a b hW
    rcases hW with hlt | ⟨heq, hS⟩
    · exact Or.inl hlt
    · exact Or.inr ⟨heq.symm, hS⟩)

/-- dfC8 is a filtered table with two companies of equal participation
(a tie). -/
def dfC8 : List LongRecord :=
  [⟨"X", "A", ⟨2023, 1, 1⟩, some 100, []⟩,
   ⟨"Y", "B", ⟨2023, 1, 1⟩, some 100, []⟩]

theorem dfC8_empresa_por_mes :
    empresa_por_mes dfC8
      = [((⟨2023, 1, 1⟩, "A"), 100), ((⟨2023, 1, 1⟩, "B"), 100)] := by
  unfold empresa_por_mes
  rw [show (dfC8.map (fun r => (r.fecha, r.empresa))).dedup
      = [((⟨2023, 1, 1⟩ : Date), "A"), (⟨2023, 1, 1⟩, "B")] from by decide]
  rw [show isortBy pairLeB [((⟨2023, 1, 1⟩ : Date), "A"), (⟨2023, 1, 1⟩, "B")]
      = [((⟨2023, 1, 1⟩ : Date), "A"), (⟨2023, 1, 1⟩, "B")] from by decide]
  simp +decide [dfC8, values, pandasSum]

theorem dfC8_total_por_mes :
    total_por_mes dfC8 = [(⟨2023, 1, 1⟩, 200)] := by
  unfold total_por_mes
  rw [show (fechas dfC8).dedup = [(⟨2023, 1, 1⟩ : Date)] from by decide]
  simp +decide [dfC8, values, pandasSum]
  norm_num

theorem dfC8_df_participacion :
    df_participacion dfC8
      = [⟨⟨2023, 1, 1⟩, "A", 100, 200, 50⟩, ⟨⟨2023, 1, 1⟩, "B", 100, 200, 50⟩] := by
  unfold df_participacion
  rw [dfC8_empresa_por_mes, dfC8_total_por_mes]
  simp +decide [dictGet]
  norm_num

theorem dfC8_stats :
    stats dfC8 = [⟨"A", 100, 100, 100, 50⟩, ⟨"B", 100, 100, 100, 50⟩] := by
  unfold stats
  rw [dfC8_df_participacion]
  rw [show (([⟨⟨2023, 1, 1⟩, "A", 100, 200, 50⟩,
      ⟨⟨2023, 1, 1⟩, "B", 100, 200, 50⟩] : List ParticipacionRow).map
        (fun r => r.empresa)).dedup = ["A", "B"] from by decide]
  rw [show isortBy strLe ["A", "B"] = ["A", "B"] from by decide]
  simp +decide [listMin, listMax, listMean]

theorem dfC8_stats_sorted :
    stats_sorted dfC8 = [⟨"B", 100, 100, 100, 50⟩, ⟨"A", 100, 100, 100, 50⟩] := by
  unfold stats_sorted sort_values_desc
  rw [dfC8_stats]
  have hle : (decide ((⟨"A", 100, 100, 100, 50⟩ : StatsRow).participacion_promedio
      ≤ (⟨"B", 100, 100, 100, 50⟩ : StatsRow).participacion_promedio)) = true :=
    decide_eq_true (by norm_num)
  simp [isortBy, insertOrd, hle]

/-- Counterexample for C8: on a two-company tie (both with mean
participation 50 and "A" < "B") the sorted statistics table lists "B"
before "A" — pandas reverses the ascending argsort for
`ascending=False`, so the tie is broken by company name DESCENDING, not
ascending as claimed. -/
theorem C8_counterexample :
    (stats_sorted dfC8).map (fun r => r.empresa) = ["B", "A"]
    ∧ (stats dfC8).map (fun r => r.participacion_promedio) = [50, 50]
    ∧ strLt "A" "B" = true := by
  refine ⟨?_, ?_, by decide⟩
  · rw [dfC8_stats_sorted]
    rfl
  · rw [dfC8_stats]
    rfl

/-- Witness for C8's amended statement at the concrete tied table. -/
theorem C8_witness :
    (stats_sorted dfC8).Pairwise (fun a b =>
      b.participacion_promedio < a.participacion_promedio
      ∨ (a.participacion_promedio = b.participacion_promedio
          ∧ strLt b.empresa a.empresa = true)) :=
  C8_stats_sorted_desc_ties_name_descending dfC8 (by
    intro d hd
    simp [fechas, dfC8] at hd
    subst hd
    simp +decide [dfC8, values, pandasSum])
